import Mathlib

/-!
# Verification of the dstelemetry Alert Detection & Device-Status Engine

Shallow embedding of the Rule Evaluator (`alerts()` in
`apps/server/src/routes/api.ts`) and the Status Resolver (the `status`
projection of `getMonitorData`) of the dstelemetry repository, together
with proofs of the specification's claims about them.

Timestamps are integers (milliseconds since the Unix epoch).  Metric
field values live in an arbitrary linear ordered commutative ring `V`
(an abstraction of the source's IEEE doubles that supports the sums,
clamps and threshold comparisons the engine performs); a missing field
is `none`.  The Alert Ledger is the `alerts` collection, modelled as a
list of alert records; the MongoDB `$merge` with
`on: [group, host, type, resolvedAt]`, `whenMatched: keepExisting`,
`whenNotMatched: insert` is modelled as an insert-if-absent, which is
also what the collection's unique index on those four fields enforces.
-/

namespace DSTelemetry

/-- The four alert rule types of the evaluator. -/
inductive AlertType where
  | cpu
  | memory
  | disk
  | deadman
deriving DecidableEq

/-- The `resolvedAt` field of an alert record: the literal string
`"ACTIVE"` sentinel, or a resolution timestamp. -/
inductive ResolutionState where
  | ACTIVE : ResolutionState
  | resolved (t : Int) : ResolutionState
deriving DecidableEq

/-- One record of the `alerts` collection. -/
structure Alert where
  group : String
  host : String
  type : AlertType
  firstDetectedAt : Int
  lastSeen : Int
  resolvedAt : ResolutionState
deriving DecidableEq

/-- One document of the `cpu` collection: tagged by (group, host), with
the usage fields that the evaluator and resolver read. -/
structure CpuSample (V : Type) where
  group : String
  host : String
  timestamp : Int
  usage_user : Option V
  usage_system : Option V
  usage_idle : Option V
deriving DecidableEq

/-- One document of the `memory` or `disk` collection: tagged by
(group, host), carrying a `used_percent` field. -/
structure PctSample (V : Type) where
  group : String
  host : String
  timestamp : Int
  used_percent : Option V
deriving DecidableEq

/-- The sample stores the evaluator and resolver scan. -/
structure Stores (V : Type) where
  cpu : List (CpuSample V)
  memory : List (PctSample V)
  disk : List (PctSample V)
deriving DecidableEq

/-- The thresholds imported from `@dstelemetry/types`. -/
structure Thresholds (V : Type) where
  CPU_WARNING_THRESHOLD : V
  MEMORY_WARNING_THRESHOLD : V
  STORAGE_WARNING_THRESHOLD : V
deriving DecidableEq

/-- `DATA_STALE_MS = 5 * 60 * 1000`. -/
def DATA_STALE_MS : Int := 5 * 60 * 1000

/-- The three-valued device status. -/
inductive Status where
  | online
  | warning
  | offline
deriving DecidableEq

/-- Maximum of a list with an explicit seed (used for the `$max`
accumulator of a `$group` stage, seeded by the first element). -/
def maxSeed {α : Type} [LinearOrder α] (t : α) : List α → α
  | [] => t
  | u :: us => maxSeed (max t u) us

/-- Minimum of a list with an explicit seed. -/
def minSeed {α : Type} [LinearOrder α] (t : α) : List α → α
  | [] => t
  | u :: us => minSeed (min t u) us

/-- `$max` over a list of values with a default for the empty list
(the default models `$ifNull`). -/
def listMax {α : Type} [LinearOrder α] (dflt : α) : List α → α
  | [] => dflt
  | t :: ts => maxSeed t ts

/-- `$min` over a list of values with a default for the empty list. -/
def listMin {α : Type} [LinearOrder α] (dflt : α) : List α → α
  | [] => dflt
  | t :: ts => minSeed t ts

variable {V : Type} [LinearOrderedCommRing V]

/-! ## Status Resolver (`getMonitorData`, step 9 `$project.status`) -/

/-- The `deviceAlerts` lookup: alerts of the device with
`resolvedAt: "ACTIVE"`. -/
def activeAlertsFor (ledger : List Alert) (g h : String) : List Alert :=
  ledger.filter (fun a => decide (a.group = g ∧ a.host = h ∧ a.resolvedAt = .ACTIVE))

/-- Timestamps of the device's cpu samples. -/
def cpuTsFor (st : Stores V) (g h : String) : List Int :=
  (st.cpu.filter (fun s => decide (s.group = g ∧ s.host = h))).map (·.timestamp)

/-- Timestamps of the device's memory samples. -/
def memTsFor (st : Stores V) (g h : String) : List Int :=
  (st.memory.filter (fun s => decide (s.group = g ∧ s.host = h))).map (·.timestamp)

/-- Timestamps of the device's disk samples. -/
def diskTsFor (st : Stores V) (g h : String) : List Int :=
  (st.disk.filter (fun s => decide (s.group = g ∧ s.host = h))).map (·.timestamp)

/-- `lastSeenTs`: the maximum of the latest cpu, memory and disk sample
timestamps, an absent sample counting as `new Date(0)` (the epoch). -/
def lastSeenTs (st : Stores V) (g h : String) : Int :=
  max (max (listMax 0 (cpuTsFor st g h)) (listMax 0 (memTsFor st g h)))
    (listMax 0 (diskTsFor st g h))

/-- The `status` field computed by `getMonitorData`: deadman alert →
offline; else stale (`$$NOW - lastSeenTs > DATA_STALE_MS`) → offline;
else any active alert → warning; else online. -/
def getDeviceStatus (now : Int) (st : Stores V) (ledger : List Alert) (g h : String) :
    Status :=
  let deviceAlerts := activeAlertsFor ledger g h
  if deviceAlerts.any (fun a => decide (a.type = .deadman)) then .offline
  else if decide (DATA_STALE_MS < now - lastSeenTs st g h) then .offline
  else if decide (0 < deviceAlerts.length) then .warning
  else .online

/-! ## Rule Evaluator (`alerts()`), resolve-side conditions -/

/-- `$gt` against a possibly-missing field: a missing field never
matches a numeric comparison. -/
def optGt (v : Option V) (t : V) : Bool :=
  match v with
  | some x => decide (t < x)
  | none => false

/-- `$lt` against a possibly-missing field. -/
def optLt (v : Option V) (t : V) : Bool :=
  match v with
  | some x => decide (x < t)
  | none => false

/-- Hosts "alive": at least one cpu sample in the last minute
(`timestamp ≥ now - 60 * 1000`). -/
def seenLastMinute (now : Int) (cpu : List (CpuSample V)) (g h : String) : Bool :=
  cpu.any (fun s => decide (s.group = g ∧ s.host = h ∧ now - 60 * 1000 ≤ s.timestamp))

/-- Cpu-alert resolve condition: some cpu sample in the last 6 minutes
has `usage_idle > CPU_WARNING_THRESHOLD`. -/
def cpuRecovered (th : Thresholds V) (now : Int) (cpu : List (CpuSample V))
    (g h : String) : Bool :=
  cpu.any (fun s =>
    decide (s.group = g ∧ s.host = h ∧ now - 6 * 60 * 1000 ≤ s.timestamp) &&
      optGt s.usage_idle th.CPU_WARNING_THRESHOLD)

/-- Memory-alert resolve condition: some memory sample in the last 6
minutes has `used_percent < MEMORY_WARNING_THRESHOLD`. -/
def memHealthy (th : Thresholds V) (now : Int) (mem : List (PctSample V))
    (g h : String) : Bool :=
  mem.any (fun s =>
    decide (s.group = g ∧ s.host = h ∧ now - 6 * 60 * 1000 ≤ s.timestamp) &&
      optLt s.used_percent th.MEMORY_WARNING_THRESHOLD)

/-- Numeric `used_percent` values of the device's disk samples in the
last 6 minutes (the disk resolve pipeline's `$match` stage). -/
def diskRecentValues (now : Int) (disk : List (PctSample V)) (g h : String) : List V :=
  (disk.filter (fun s =>
    decide (s.group = g ∧ s.host = h ∧ now - 6 * 60 * 1000 ≤ s.timestamp))).filterMap
    (·.used_percent)

/-- Disk-alert resolve condition: the device has at least one numeric
disk sample in the last 6 minutes and the maximum `used_percent` among
them is below `STORAGE_WARNING_THRESHOLD`. -/
def diskUnderThreshold (now : Int) (t : V) (disk : List (PctSample V)) (g h : String) :
    Bool :=
  !(diskRecentValues now disk g h).isEmpty &&
    decide (listMax 0 (diskRecentValues now disk g h) < t)

/-- The `updateMany` of a resolve step: every record of the given type
that is `ACTIVE` and whose (group, host) satisfies the condition gets
`resolvedAt` set to the evaluation time; every other record is left
unchanged. -/
def resolveWhere (t : AlertType) (cond : String → String → Bool) (now : Int)
    (ledger : List Alert) : List Alert :=
  ledger.map (fun a =>
    if decide (a.type = t) && decide (a.resolvedAt = .ACTIVE) && cond a.group a.host
    then { a with resolvedAt := .resolved now }
    else a)

/-! ## Rule Evaluator, open-side pipelines -/

/-- The key a cpu sample is grouped by. -/
def keyOfCpu (s : CpuSample V) : String × String := (s.group, s.host)

/-- The key a percentage sample is grouped by. -/
def keyOfPct (s : PctSample V) : String × String := (s.group, s.host)

/-- The distinct (group, host) keys of a `$group` stage. -/
def keysOf {α : Type} (key : α → String × String) (ss : List α) :
    List (String × String) :=
  (ss.map key).dedup

/-- The samples contributing to one group of a `$group` stage. -/
def samplesFor {α : Type} (key : α → String × String) (k : String × String)
    (ss : List α) : List α :=
  ss.filter (fun s => decide (key s = k))

/-- Agreement on the `$merge`/unique-index key
(group, host, type, resolvedAt). -/
def sameKey (a doc : Alert) : Prop :=
  a.group = doc.group ∧ a.host = doc.host ∧ a.type = doc.type ∧
    a.resolvedAt = doc.resolvedAt

instance (a doc : Alert) : Decidable (sameKey a doc) := by
  unfold sameKey
  exact inferInstance

/-- `$merge` into `alerts` `on: [group, host, type, resolvedAt]` with
`whenMatched: keepExisting`, `whenNotMatched: insert`, for one document. -/
def mergeOn (ledger : List Alert) (doc : Alert) : List Alert :=
  if ledger.any (fun a => decide (sameKey a doc))
  then ledger
  else ledger ++ [doc]

/-- `$merge` of the whole pipeline output. -/
def mergeAll (ledger : List Alert) (docs : List Alert) : List Alert :=
  docs.foldl mergeOn ledger

/-- Deadman open pipeline: group the whole cpu collection by
(group, host) with `lastSeen = $max timestamp`, keep the keys with
`$$NOW - lastSeen > 5 * 60 * 1000`, and shape an `ACTIVE` deadman alert
with `firstDetectedAt = $$NOW`. -/
def deadmanOpenDocs (now : Int) (cpu : List (CpuSample V)) : List Alert :=
  (keysOf keyOfCpu cpu).filterMap (fun k =>
    if decide (5 * 60 * 1000 <
        now - listMax 0 ((samplesFor keyOfCpu k cpu).map (·.timestamp))) then
      some { group := k.1, host := k.2, type := .deadman, firstDetectedAt := now,
             lastSeen := listMax 0 ((samplesFor keyOfCpu k cpu).map (·.timestamp)),
             resolvedAt := .ACTIVE }
    else none)

/-- `cpu_used = $add [usage_user, usage_system]`: `$add` of a missing
field is null, which never passes a numeric `$match`. -/
def cpu_used (s : CpuSample V) : Option V :=
  match s.usage_user, s.usage_system with
  | some u, some v => some (u + v)
  | _, _ => none

/-- The cpu samples of the last 5 minutes with
`cpu_used > CPU_WARNING_THRESHOLD`. -/
def cpuHighSamples (th : Thresholds V) (now : Int) (cpu : List (CpuSample V)) :
    List (CpuSample V) :=
  cpu.filter (fun s =>
    decide (now - 5 * 60 * 1000 ≤ s.timestamp) &&
      optGt (cpu_used s) th.CPU_WARNING_THRESHOLD)

/-- Cpu open pipeline: at least 6 high samples in the 5-minute window
open an `ACTIVE` cpu alert with `firstDetectedAt`/`lastSeen` the
min/max qualifying timestamps. -/
def cpuOpenDocs (th : Thresholds V) (now : Int) (cpu : List (CpuSample V)) :
    List Alert :=
  (keysOf keyOfCpu (cpuHighSamples th now cpu)).filterMap (fun k =>
    if decide (6 ≤ ((samplesFor keyOfCpu k (cpuHighSamples th now cpu)).map
        (·.timestamp)).length) then
      some { group := k.1, host := k.2, type := .cpu,
             firstDetectedAt := listMin 0 ((samplesFor keyOfCpu k
               (cpuHighSamples th now cpu)).map (·.timestamp)),
             lastSeen := listMax 0 ((samplesFor keyOfCpu k
               (cpuHighSamples th now cpu)).map (·.timestamp)),
             resolvedAt := .ACTIVE }
    else none)

/-- `min 100 (max 0 x)`: the clamp of a percentage into [0, 100]. -/
def clampPct (x : V) : V := min 100 (max 0 x)

/-- The memory samples of the last 5 minutes whose numeric, clamped
`used_percent` is at least `MEMORY_WARNING_THRESHOLD`. -/
def memHighSamples (th : Thresholds V) (now : Int) (mem : List (PctSample V)) :
    List (PctSample V) :=
  mem.filter (fun s =>
    decide (now - 5 * 60 * 1000 ≤ s.timestamp) &&
      match s.used_percent with
      | some p => decide (th.MEMORY_WARNING_THRESHOLD ≤ clampPct p)
      | none => false)

/-- Memory open pipeline: at least 2 high samples in the 5-minute
window open an `ACTIVE` memory alert. -/
def memOpenDocs (th : Thresholds V) (now : Int) (mem : List (PctSample V)) :
    List Alert :=
  (keysOf keyOfPct (memHighSamples th now mem)).filterMap (fun k =>
    if decide (2 ≤ ((samplesFor keyOfPct k (memHighSamples th now mem)).map
        (·.timestamp)).length) then
      some { group := k.1, host := k.2, type := .memory,
             firstDetectedAt := listMin 0 ((samplesFor keyOfPct k
               (memHighSamples th now mem)).map (·.timestamp)),
             lastSeen := listMax 0 ((samplesFor keyOfPct k
               (memHighSamples th now mem)).map (·.timestamp)),
             resolvedAt := .ACTIVE }
    else none)

/-- The disk samples of the last 15 minutes whose numeric, clamped
`used_percent` is at least `STORAGE_WARNING_THRESHOLD`. -/
def diskHighSamples (th : Thresholds V) (now : Int) (disk : List (PctSample V)) :
    List (PctSample V) :=
  disk.filter (fun s =>
    decide (now - 15 * 60 * 1000 ≤ s.timestamp) &&
      match s.used_percent with
      | some p => decide (th.STORAGE_WARNING_THRESHOLD ≤ clampPct p)
      | none => false)

/-- Disk open pipeline: at least 2 high samples in the 15-minute window
open an `ACTIVE` disk alert. -/
def diskOpenDocs (th : Thresholds V) (now : Int) (disk : List (PctSample V)) :
    List Alert :=
  (keysOf keyOfPct (diskHighSamples th now disk)).filterMap (fun k =>
    if decide (2 ≤ ((samplesFor keyOfPct k (diskHighSamples th now disk)).map
        (·.timestamp)).length) then
      some { group := k.1, host := k.2, type := .disk,
             firstDetectedAt := listMin 0 ((samplesFor keyOfPct k
               (diskHighSamples th now disk)).map (·.timestamp)),
             lastSeen := listMax 0 ((samplesFor keyOfPct k
               (diskHighSamples th now disk)).map (·.timestamp)),
             resolvedAt := .ACTIVE }
    else none)

/-! ## The evaluator tick -/

/-- Resolve deadman alerts of hosts seen in the last minute. -/
def resolveDeadmanStep (now : Int) (st : Stores V) (ledger : List Alert) :
    List Alert :=
  resolveWhere .deadman (seenLastMinute now st.cpu) now ledger

/-- Resolve cpu alerts of hosts whose load dropped. -/
def resolveCpuStep (th : Thresholds V) (now : Int) (st : Stores V)
    (ledger : List Alert) : List Alert :=
  resolveWhere .cpu (cpuRecovered th now st.cpu) now ledger

/-- Resolve memory alerts of healthy hosts. -/
def resolveMemoryStep (th : Thresholds V) (now : Int) (st : Stores V)
    (ledger : List Alert) : List Alert :=
  resolveWhere .memory (memHealthy th now st.memory) now ledger

/-- Resolve disk alerts of hosts whose recent maximum usage is below
the threshold. -/
def resolveDiskStep (th : Thresholds V) (now : Int) (st : Stores V)
    (ledger : List Alert) : List Alert :=
  resolveWhere .disk (diskUnderThreshold now th.STORAGE_WARNING_THRESHOLD st.disk)
    now ledger

/-- Merge the deadman open pipeline output into the ledger. -/
def openDeadmanStep (now : Int) (st : Stores V) (ledger : List Alert) : List Alert :=
  mergeAll ledger (deadmanOpenDocs now st.cpu)

/-- Merge the cpu open pipeline output into the ledger. -/
def openCpuStep (th : Thresholds V) (now : Int) (st : Stores V) (ledger : List Alert) :
    List Alert :=
  mergeAll ledger (cpuOpenDocs th now st.cpu)

/-- Merge the memory open pipeline output into the ledger. -/
def openMemoryStep (th : Thresholds V) (now : Int) (st : Stores V)
    (ledger : List Alert) : List Alert :=
  mergeAll ledger (memOpenDocs th now st.memory)

/-- Merge the disk open pipeline output into the ledger. -/
def openDiskStep (th : Thresholds V) (now : Int) (st : Stores V)
    (ledger : List Alert) : List Alert :=
  mergeAll ledger (diskOpenDocs th now st.disk)

/-- The four open pipelines of one tick, in source order. -/
def openSteps (th : Thresholds V) (now : Int) (st : Stores V) (ledger : List Alert) :
    List Alert :=
  openDiskStep th now st (openMemoryStep th now st (openCpuStep th now st
    (openDeadmanStep now st ledger)))

/-- One tick of the `alerts()` cron job: the four resolve updates, then
the four open pipelines, in source order. -/
def evaluatorTick (th : Thresholds V) (now : Int) (st : Stores V)
    (ledger : List Alert) : List Alert :=
  openSteps th now st (resolveDiskStep th now st (resolveMemoryStep th now st
    (resolveCpuStep th now st (resolveDeadmanStep now st ledger))))

/-! ## Basic facts about the `$max`/`$min` accumulators -/

theorem maxSeed_lt_iff {α : Type} [LinearOrder α] (t x : α) (l : List α) :
    maxSeed t l < x ↔ t < x ∧ ∀ u ∈ l, u < x := by
  induction l generalizing t with
  | nil => simp [maxSeed]
  | cons u us ih =>
    simp only [maxSeed, ih, max_lt_iff, List.forall_mem_cons]
    tauto

theorem le_maxSeed_self {α : Type} [LinearOrder α] (t : α) (l : List α) :
    t ≤ maxSeed t l := by
  induction l generalizing t with
  | nil => simp [maxSeed]
  | cons u us ih =>
    exact le_trans (le_max_left t u) (ih (max t u))

theorem le_maxSeed_of_mem {α : Type} [LinearOrder α] {t u : α} {l : List α}
    (hu : u ∈ l) : u ≤ maxSeed t l := by
  induction l generalizing t with
  | nil => cases hu
  | cons v vs ih =>
    rcases List.mem_cons.mp hu with rfl | hmem
    · exact le_trans (le_max_right t u) (le_maxSeed_self _ _)
    · exact ih hmem

theorem maxSeed_mem_or {α : Type} [LinearOrder α] (t : α) (l : List α) :
    maxSeed t l = t ∨ maxSeed t l ∈ l := by
  induction l generalizing t with
  | nil => exact Or.inl rfl
  | cons u us ih =>
    rcases ih (max t u) with h | h
    · rcases max_choice t u with hm | hm
      · exact Or.inl (by rw [maxSeed, h, hm])
      · exact Or.inr (by rw [maxSeed, h, hm]; exact List.mem_cons_self u us)
    · exact Or.inr (List.mem_cons_of_mem u h)

theorem listMax_lt_iff {α : Type} [LinearOrder α] {d x : α} {l : List α}
    (hne : l ≠ []) : listMax d l < x ↔ ∀ u ∈ l, u < x := by
  cases l with
  | nil => exact absurd rfl hne
  | cons t ts => simp [listMax, maxSeed_lt_iff]

theorem listMax_mem {α : Type} [LinearOrder α] {d : α} {l : List α} (hne : l ≠ []) :
    listMax d l ∈ l := by
  cases l with
  | nil => exact absurd rfl hne
  | cons t ts =>
    rcases maxSeed_mem_or t ts with h | h
    · rw [listMax, h]; exact List.mem_cons_self t ts
    · exact List.mem_cons_of_mem t h

theorem le_listMax_of_mem {α : Type} [LinearOrder α] {d u : α} {l : List α}
    (hu : u ∈ l) : u ≤ listMax d l := by
  cases l with
  | nil => cases hu
  | cons t ts =>
    rcases List.mem_cons.mp hu with rfl | hmem
    · exact le_maxSeed_self _ _
    · exact le_maxSeed_of_mem hmem

/-! ## Active-alert predicates on the ledger -/

/-- The record is an `ACTIVE` alert of the given (group, host, type). -/
def isActiveFor (a : Alert) (g h : String) (t : AlertType) : Prop :=
  a.group = g ∧ a.host = h ∧ a.type = t ∧ a.resolvedAt = .ACTIVE

instance (a : Alert) (g h : String) (t : AlertType) : Decidable (isActiveFor a g h t) := by
  unfold isActiveFor
  exact inferInstance

/-- The ledger holds an `ACTIVE` alert of the given (group, host, type). -/
def hasActive (L : List Alert) (g h : String) (t : AlertType) : Prop :=
  ∃ a ∈ L, isActiveFor a g h t

instance (L : List Alert) (g h : String) (t : AlertType) : Decidable (hasActive L g h t) := by
  unfold hasActive
  exact inferInstance

/-- The number of `ACTIVE` records for a (group, host, type) triple. -/
def activeCount (L : List Alert) (g h : String) (t : AlertType) : Nat :=
  (L.filter (fun a => decide (isActiveFor a g h t))).length

/-- The Alert-Ledger invariant: at most one `ACTIVE` record per
(group, host, type). -/
def AtMostOneActive (L : List Alert) : Prop :=
  ∀ g h t, activeCount L g h t ≤ 1

theorem activeCount_eq_zero_iff {L : List Alert} {g h : String} {t : AlertType} :
    activeCount L g h t = 0 ↔ ¬ hasActive L g h t := by
  unfold activeCount hasActive
  rw [List.length_eq_zero, List.filter_eq_nil_iff]
  constructor
  · intro hall hex
    rcases hex with ⟨a, ha, hact⟩
    exact hall a ha (decide_eq_true hact)
  · intro hnone a ha hdec
    exact hnone ⟨a, ha, of_decide_eq_true hdec⟩

/-! ## Behaviour of a resolve update on the ledger -/

/-- The per-record transform of `resolveWhere`, for reasoning. -/
def resolveFn (t : AlertType) (cond : String → String → Bool) (now : Int)
    (a : Alert) : Alert :=
  if decide (a.type = t) && decide (a.resolvedAt = .ACTIVE) && cond a.group a.host
  then { a with resolvedAt := .resolved now }
  else a

theorem resolveWhere_eq_map (t : AlertType) (c : String → String → Bool) (now : Int)
    (L : List Alert) : resolveWhere t c now L = L.map (resolveFn t c now) := rfl

theorem resolveFn_eq_self {t : AlertType} {c : String → String → Bool} {now : Int}
    {a : Alert} (hnm : ¬ (a.type = t ∧ a.resolvedAt = .ACTIVE ∧
      c a.group a.host = true)) : resolveFn t c now a = a := by
  unfold resolveFn
  rw [if_neg]
  intro hcond
  rcases Bool.and_eq_true _ _ |>.mp hcond with ⟨h12, h3⟩
  rcases Bool.and_eq_true _ _ |>.mp h12 with ⟨h1, h2⟩
  exact hnm ⟨of_decide_eq_true h1, of_decide_eq_true h2, h3⟩

theorem resolveFn_eq_resolved {t : AlertType} {c : String → String → Bool}
    {now : Int} {a : Alert} (h1 : a.type = t) (h2 : a.resolvedAt = .ACTIVE)
    (h3 : c a.group a.host = true) :
    resolveFn t c now a = { a with resolvedAt := .resolved now } := by
  unfold resolveFn
  rw [if_pos]
  rw [decide_eq_true h1, decide_eq_true h2, h3]
  rfl

theorem resolveFn_cases (t : AlertType) (c : String → String → Bool) (now : Int)
    (a : Alert) : resolveFn t c now a = a ∨
      resolveFn t c now a = { a with resolvedAt := .resolved now } := by
  unfold resolveFn
  split
  · exact Or.inr rfl
  · exact Or.inl rfl

theorem mem_resolveWhere_of_not_match {a : Alert} {L : List Alert}
    {t : AlertType} {c : String → String → Bool} {now : Int} (ha : a ∈ L)
    (hnm : ¬ (a.type = t ∧ a.resolvedAt = .ACTIVE ∧ c a.group a.host = true)) :
    a ∈ resolveWhere t c now L := by
  rw [resolveWhere_eq_map]
  exact List.mem_map.mpr ⟨a, ha, resolveFn_eq_self hnm⟩

theorem mem_resolveWhere_of_match {a : Alert} {L : List Alert} {t : AlertType}
    {c : String → String → Bool} {now : Int} (ha : a ∈ L) (h1 : a.type = t)
    (h2 : a.resolvedAt = .ACTIVE) (h3 : c a.group a.host = true) :
    { a with resolvedAt := .resolved now } ∈ resolveWhere t c now L := by
  rw [resolveWhere_eq_map]
  exact List.mem_map.mpr ⟨a, ha, resolveFn_eq_resolved h1 h2 h3⟩

theorem activeCount_resolveWhere_le (t : AlertType) (c : String → String → Bool)
    (now : Int) (L : List Alert) (g h : String) (ty : AlertType) :
    activeCount (resolveWhere t c now L) g h ty ≤ activeCount L g h ty := by
  rw [resolveWhere_eq_map]
  unfold activeCount
  rw [← List.countP_eq_length_filter, ← List.countP_eq_length_filter,
    List.countP_map]
  apply List.countP_mono_left
  intro a _ hpa
  simp only [Function.comp_apply] at hpa
  rcases resolveFn_cases t c now a with hcase | hcase
  · rwa [hcase] at hpa
  · rw [hcase] at hpa
    have : isActiveFor { a with resolvedAt := .resolved now } g h ty :=
      of_decide_eq_true hpa
    exact absurd this.2.2.2 (by intro hh; exact ResolutionState.noConfusion hh)

theorem hasActive_resolveWhere {t : AlertType} {c : String → String → Bool}
    {now : Int} {L : List Alert} {g h : String} {ty : AlertType} :
    hasActive (resolveWhere t c now L) g h ty ↔
      hasActive L g h ty ∧ ¬ (ty = t ∧ c g h = true) := by
  constructor
  · rintro ⟨b, hb, hact⟩
    rw [resolveWhere_eq_map] at hb
    rcases List.mem_map.mp hb with ⟨a, ha, rfl⟩
    rcases resolveFn_cases t c now a with hcase | hcase
    · rw [hcase] at hact
      refine ⟨⟨a, ha, hact⟩, ?_⟩
      rintro ⟨hty, hc⟩
      have hres : resolveFn t c now a = { a with resolvedAt := .resolved now } :=
        resolveFn_eq_resolved (hact.2.2.1.trans hty) hact.2.2.2
          (by rw [hact.1, hact.2.1]; exact hc)
      rw [hcase] at hres
      have hcontra := congrArg Alert.resolvedAt hres
      rw [hact.2.2.2] at hcontra
      exact ResolutionState.noConfusion hcontra
    · rw [hcase] at hact
      exact absurd hact.2.2.2 (by intro hh; exact ResolutionState.noConfusion hh)
  · rintro ⟨⟨a, ha, hact⟩, hnot⟩
    refine ⟨a, ?_, hact⟩
    apply mem_resolveWhere_of_not_match ha
    rintro ⟨h1, _, h3⟩
    exact hnot ⟨hact.2.2.1.symm.trans h1, by rw [← hact.1, ← hact.2.1]; exact h3⟩

/-! ## Behaviour of the `$merge` insert-if-absent on the ledger -/

/-- The ledger already holds a record with the document's
(group, host, type, resolvedAt) key. -/
def hasKey (L : List Alert) (doc : Alert) : Prop :=
  ∃ a ∈ L, sameKey a doc

instance (L : List Alert) (doc : Alert) : Decidable (hasKey L doc) := by
  unfold hasKey
  exact inferInstance

theorem mergeOn_eq_of_hasKey {L : List Alert} {doc : Alert} (hk : hasKey L doc) :
    mergeOn L doc = L := by
  unfold mergeOn
  rw [if_pos]
  rcases hk with ⟨a, ha, hsk⟩
  exact List.any_eq_true.mpr ⟨a, ha, decide_eq_true hsk⟩

theorem mergeOn_eq_append_of_not_hasKey {L : List Alert} {doc : Alert}
    (hk : ¬ hasKey L doc) : mergeOn L doc = L ++ [doc] := by
  unfold mergeOn
  rw [if_neg]
  intro hany
  rcases List.any_eq_true.mp hany with ⟨a, ha, hsk⟩
  exact hk ⟨a, ha, of_decide_eq_true hsk⟩

theorem mem_mergeOn {a : Alert} {L : List Alert} (doc : Alert) (ha : a ∈ L) :
    a ∈ mergeOn L doc := by
  unfold mergeOn
  split
  · exact ha
  · exact List.mem_append_left _ ha

theorem hasKey_mergeOn_self (L : List Alert) (doc : Alert) :
    hasKey (mergeOn L doc) doc := by
  by_cases hk : hasKey L doc
  · rw [mergeOn_eq_of_hasKey hk]
    exact hk
  · rw [mergeOn_eq_append_of_not_hasKey hk]
    exact ⟨doc, List.mem_append_right _ (List.mem_singleton_self doc),
      rfl, rfl, rfl, rfl⟩

theorem hasKey_mergeOn_mono {L : List Alert} {d : Alert} (d' : Alert)
    (hk : hasKey L d) : hasKey (mergeOn L d') d := by
  rcases hk with ⟨a, ha, hsk⟩
  exact ⟨a, mem_mergeOn d' ha, hsk⟩

theorem mem_mergeAll {a : Alert} {L : List Alert} (docs : List Alert) (ha : a ∈ L) :
    a ∈ mergeAll L docs := by
  induction docs generalizing L with
  | nil => exact ha
  | cons d ds ih => exact ih (mem_mergeOn d ha)

theorem hasKey_mergeAll_mono {L : List Alert} {d : Alert} (docs : List Alert)
    (hk : hasKey L d) : hasKey (mergeAll L docs) d := by
  rcases hk with ⟨a, ha, hsk⟩
  exact ⟨a, mem_mergeAll docs ha, hsk⟩

theorem hasKey_mergeAll_of_mem {L : List Alert} {d : Alert} {docs : List Alert}
    (hd : d ∈ docs) : hasKey (mergeAll L docs) d := by
  induction docs generalizing L with
  | nil => cases hd
  | cons d' ds ih =>
    rcases List.mem_cons.mp hd with rfl | hmem
    · exact hasKey_mergeAll_mono ds (hasKey_mergeOn_self L d)
    · exact ih hmem

theorem mergeAll_eq_of_all_hasKey {L : List Alert} {docs : List Alert}
    (hall : ∀ d ∈ docs, hasKey L d) : mergeAll L docs = L := by
  induction docs with
  | nil => rfl
  | cons d ds ih =>
    have h1 : mergeOn L d = L := mergeOn_eq_of_hasKey (hall d (List.mem_cons_self d ds))
    show mergeAll (mergeOn L d) ds = L
    rw [h1]
    exact ih (fun d' hd' => hall d' (List.mem_cons_of_mem d hd'))

theorem hasActive_mergeOn {L : List Alert} {doc : Alert} {g h : String}
    {ty : AlertType} :
    hasActive (mergeOn L doc) g h ty ↔ hasActive L g h ty ∨ isActiveFor doc g h ty := by
  by_cases hk : hasKey L doc
  · rw [mergeOn_eq_of_hasKey hk]
    constructor
    · exact Or.inl
    · rintro (hact | hact)
      · exact hact
      · rcases hk with ⟨a, ha, hsk⟩
        refine ⟨a, ha, ?_⟩
        rcases hsk with ⟨hg, hh, ht, hr⟩
        rcases hact with ⟨hg', hh', ht', hr'⟩
        exact ⟨hg.trans hg', hh.trans hh', ht.trans ht', hr.trans hr'⟩
  · rw [mergeOn_eq_append_of_not_hasKey hk]
    unfold hasActive
    constructor
    · rintro ⟨a, ha, hact⟩
      rcases List.mem_append.mp ha with ha' | ha'
      · exact Or.inl ⟨a, ha', hact⟩
      · rw [List.mem_singleton.mp ha'] at hact
        exact Or.inr hact
    · rintro (⟨a, ha, hact⟩ | hact)
      · exact ⟨a, List.mem_append_left _ ha, hact⟩
      · exact ⟨doc, List.mem_append_right _ (List.mem_singleton_self doc), hact⟩

theorem hasActive_mergeAll {L : List Alert} {docs : List Alert} {g h : String}
    {ty : AlertType} :
    hasActive (mergeAll L docs) g h ty ↔
      hasActive L g h ty ∨ ∃ d ∈ docs, isActiveFor d g h ty := by
  induction docs generalizing L with
  | nil => simp [mergeAll]
  | cons d ds ih =>
    show hasActive (mergeAll (mergeOn L d) ds) g h ty ↔ _
    rw [ih, hasActive_mergeOn]
    constructor
    · rintro ((hL | hd) | ⟨d', hd', hact⟩)
      · exact Or.inl hL
      · exact Or.inr ⟨d, List.mem_cons_self d ds, hd⟩
      · exact Or.inr ⟨d', List.mem_cons_of_mem d hd', hact⟩
    · rintro (hL | ⟨d', hd', hact⟩)
      · exact Or.inl (Or.inl hL)
      · rcases List.mem_cons.mp hd' with rfl | hmem
        · exact Or.inl (Or.inr hact)
        · exact Or.inr ⟨d', hmem, hact⟩

/-! ## Preservation of the at-most-one-ACTIVE invariant -/

theorem AtMostOneActive_resolveWhere {L : List Alert} (t : AlertType)
    (c : String → String → Bool) (now : Int) (hL : AtMostOneActive L) :
    AtMostOneActive (resolveWhere t c now L) :=
  fun g h ty => le_trans (activeCount_resolveWhere_le t c now L g h ty) (hL g h ty)

theorem activeCount_append (L M : List Alert) (g h : String) (t : AlertType) :
    activeCount (L ++ M) g h t = activeCount L g h t + activeCount M g h t := by
  unfold activeCount
  rw [List.filter_append, List.length_append]

theorem AtMostOneActive_mergeOn {L : List Alert} {doc : Alert}
    (hL : AtMostOneActive L) : AtMostOneActive (mergeOn L doc) := by
  by_cases hk : hasKey L doc
  · rw [mergeOn_eq_of_hasKey hk]
    exact hL
  · rw [mergeOn_eq_append_of_not_hasKey hk]
    intro g h t
    rw [activeCount_append]
    by_cases hact : isActiveFor doc g h t
    · have hzero : activeCount L g h t = 0 := by
        rw [activeCount_eq_zero_iff]
        rintro ⟨a, ha, hact'⟩
        apply hk
        refine ⟨a, ha, ?_⟩
        rcases hact with ⟨hg, hh, ht, hr⟩
        rcases hact' with ⟨hg', hh', ht', hr'⟩
        exact ⟨hg'.trans hg.symm, hh'.trans hh.symm, ht'.trans ht.symm,
          hr'.trans hr.symm⟩
      rw [hzero]
      have : activeCount [doc] g h t ≤ 1 :=
        List.length_filter_le (fun a => decide (isActiveFor a g h t)) [doc]
      omega
    · have : activeCount [doc] g h t = 0 := by
        rw [activeCount_eq_zero_iff]
        rintro ⟨a, ha, hact'⟩
        rw [List.mem_singleton.mp ha] at hact'
        exact hact hact'
      rw [this]
      have := hL g h t
      omega

theorem AtMostOneActive_mergeAll {L : List Alert} (docs : List Alert)
    (hL : AtMostOneActive L) : AtMostOneActive (mergeAll L docs) := by
  induction docs generalizing L with
  | nil => exact hL
  | cons d ds ih => exact ih (AtMostOneActive_mergeOn hL)

/-! ## Persistence of records through the steps of a tick -/

theorem mem_resolveWhere_of_resolved {a : Alert} {L : List Alert} {t : AlertType}
    {c : String → String → Bool} {now tstamp : Int} (ha : a ∈ L)
    (hr : a.resolvedAt = .resolved tstamp) : a ∈ resolveWhere t c now L :=
  mem_resolveWhere_of_not_match ha (by
    rintro ⟨_, h2, _⟩
    rw [hr] at h2
    exact ResolutionState.noConfusion h2)

theorem mem_evaluatorTick_of_resolved {a : Alert} {L : List Alert} {tstamp : Int}
    (th : Thresholds V) (now : Int) (st : Stores V) (ha : a ∈ L)
    (hr : a.resolvedAt = .resolved tstamp) : a ∈ evaluatorTick th now st L := by
  unfold evaluatorTick openSteps openDeadmanStep openCpuStep openMemoryStep
    openDiskStep resolveDeadmanStep resolveCpuStep resolveMemoryStep resolveDiskStep
  exact mem_mergeAll _ (mem_mergeAll _ (mem_mergeAll _ (mem_mergeAll _
    (mem_resolveWhere_of_resolved (mem_resolveWhere_of_resolved
      (mem_resolveWhere_of_resolved (mem_resolveWhere_of_resolved ha hr) hr) hr)
      hr))))

/-! ## Concrete data used by the witnesses -/

/-- Concrete thresholds (the values of `clients.tsx`): storage 90,
memory 85, cpu 90. -/
def exTh : Thresholds Int :=
  { CPU_WARNING_THRESHOLD := 90, MEMORY_WARNING_THRESHOLD := 85,
    STORAGE_WARNING_THRESHOLD := 90 }

/-- A concrete high-cpu sample for host ("g", "h"). -/
def exCpuSample (t : Int) : CpuSample Int :=
  { group := "g", host := "h", timestamp := t, usage_user := some 100,
    usage_system := some 0, usage_idle := none }

/-- Six high-cpu samples between 100 s and 105 s. -/
def exStores : Stores Int :=
  { cpu := [exCpuSample 100000, exCpuSample 101000, exCpuSample 102000,
      exCpuSample 103000, exCpuSample 104000, exCpuSample 105000],
    memory := [], disk := [] }

/-- Empty stores. -/
def emptyStores : Stores Int := { cpu := [], memory := [], disk := [] }

/-- A ledger holding one `ACTIVE` cpu alert for ("g", "h"). -/
def exLedgerOne : List Alert :=
  [{ group := "g", host := "h", type := .cpu, firstDetectedAt := 100000,
     lastSeen := 105000, resolvedAt := .ACTIVE }]

/-! ## Claim C1 -/

/-- C1: every open and resolve operation of the Rule Evaluator — and
hence a whole evaluator tick — preserves the invariant that at most one
`ACTIVE` alert record exists per (group, host, type) triple, while
resolved records are never removed by a tick, so any number of them may
accumulate for the same triple. -/
theorem C1_active_uniqueness (V : Type) [LinearOrderedCommRing V]
    (th : Thresholds V) (now : Int) (st : Stores V) (L : List Alert)
    (hL : AtMostOneActive L) :
    AtMostOneActive (resolveDeadmanStep now st L) ∧
    AtMostOneActive (resolveCpuStep th now st L) ∧
    AtMostOneActive (resolveMemoryStep th now st L) ∧
    AtMostOneActive (resolveDiskStep th now st L) ∧
    AtMostOneActive (openDeadmanStep now st L) ∧
    AtMostOneActive (openCpuStep th now st L) ∧
    AtMostOneActive (openMemoryStep th now st L) ∧
    AtMostOneActive (openDiskStep th now st L) ∧
    AtMostOneActive (evaluatorTick th now st L) ∧
    (∀ a ∈ L, ∀ tstamp : Int, a.resolvedAt = .resolved tstamp →
      a ∈ evaluatorTick th now st L) := by
  refine ⟨AtMostOneActive_resolveWhere _ _ _ hL,
    AtMostOneActive_resolveWhere _ _ _ hL,
    AtMostOneActive_resolveWhere _ _ _ hL,
    AtMostOneActive_resolveWhere _ _ _ hL,
    AtMostOneActive_mergeAll _ hL,
    AtMostOneActive_mergeAll _ hL,
    AtMostOneActive_mergeAll _ hL,
    AtMostOneActive_mergeAll _ hL, ?_, ?_⟩
  · unfold evaluatorTick openSteps openDeadmanStep openCpuStep openMemoryStep
      openDiskStep resolveDeadmanStep resolveCpuStep resolveMemoryStep
      resolveDiskStep
    exact AtMostOneActive_mergeAll _ (AtMostOneActive_mergeAll _
      (AtMostOneActive_mergeAll _ (AtMostOneActive_mergeAll _
        (AtMostOneActive_resolveWhere _ _ _ (AtMostOneActive_resolveWhere _ _ _
          (AtMostOneActive_resolveWhere _ _ _
            (AtMostOneActive_resolveWhere _ _ _ hL)))))))
  · intro a ha tstamp hr
    exact mem_evaluatorTick_of_resolved th now st ha hr

/-- Witness for C1 at a concrete ledger and tick. -/
theorem C1_active_uniqueness_witness :
    AtMostOneActive (evaluatorTick exTh 400000 exStores exLedgerOne) :=
  (C1_active_uniqueness Int exTh 400000 exStores exLedgerOne
    (fun _ _ _ => List.length_filter_le _ _)).2.2.2.2.2.2.2.2.1

/-! ## Claim C10 -/

/-- Folding a list of (now, stores) ticks over a ledger. -/
def runTicks (th : Thresholds V) (ticks : List (Int × Stores V)) (L : List Alert) :
    List Alert :=
  ticks.foldl (fun acc p => evaluatorTick th p.1 p.2 acc) L

/-- C10: once a record's `resolvedAt` holds a timestamp, no evaluator
operation ever touches it again: every open merge matches only other
keys (it inserts or keeps, never updates) and every resolve update
filters on `resolvedAt = "ACTIVE"`, so the resolved record survives any
sequence of subsequent ticks unchanged. -/
theorem C10_resolved_immutable (V : Type) [LinearOrderedCommRing V]
    (th : Thresholds V) (ticks : List (Int × Stores V)) (L : List Alert)
    (a : Alert) (tstamp : Int) (ha : a ∈ L)
    (hr : a.resolvedAt = .resolved tstamp) : a ∈ runTicks th ticks L := by
  induction ticks generalizing L with
  | nil => exact ha
  | cons p ps ih =>
    exact ih (evaluatorTick th p.1 p.2 L)
      (mem_evaluatorTick_of_resolved th p.1 p.2 ha hr)

/-- A concrete resolved alert record. -/
def exResolved : Alert :=
  { group := "g", host := "h", type := .cpu, firstDetectedAt := 1000,
    lastSeen := 2000, resolvedAt := .resolved 3000 }

/-- Witness for C10: a resolved record survives two concrete ticks. -/
theorem C10_resolved_immutable_witness :
    exResolved ∈ runTicks exTh [(400000, exStores), (700000, exStores)]
      [exResolved] :=
  C10_resolved_immutable Int exTh [(400000, exStores), (700000, exStores)]
    [exResolved] exResolved 3000 (List.mem_singleton_self _) rfl

/-! ## Claim C4 -/

/-- C4: running the Open step (the four open pipelines of a tick) twice
in immediate succession over an unchanged sample set yields the same
Ledger state as running it once — the second run's `$merge` finds every
document's (group, host, type, ACTIVE) key already present and keeps the
existing records untouched, so no duplicate is created and no
`firstDetectedAt` moves. -/
theorem C4_open_idempotent (V : Type) [LinearOrderedCommRing V]
    (th : Thresholds V) (now : Int) (st : Stores V) (L : List Alert) :
    openSteps th now st (openSteps th now st L) = openSteps th now st L := by
  unfold openSteps openDiskStep openMemoryStep openCpuStep openDeadmanStep
  set A := deadmanOpenDocs now st.cpu with hA'
  set B := cpuOpenDocs th now st.cpu with hB'
  set C := memOpenDocs th now st.memory with hC'
  set D := diskOpenDocs th now st.disk with hD'
  set X := mergeAll (mergeAll (mergeAll (mergeAll L A) B) C) D with hX
  have hA : ∀ d ∈ A, hasKey X d := fun d hd =>
    hasKey_mergeAll_mono D (hasKey_mergeAll_mono C (hasKey_mergeAll_mono B
      (hasKey_mergeAll_of_mem hd)))
  have hB : ∀ d ∈ B, hasKey X d := fun d hd =>
    hasKey_mergeAll_mono D (hasKey_mergeAll_mono C (hasKey_mergeAll_of_mem hd))
  have hC : ∀ d ∈ C, hasKey X d := fun d hd =>
    hasKey_mergeAll_mono D (hasKey_mergeAll_of_mem hd)
  have hD : ∀ d ∈ D, hasKey X d := fun d hd => hasKey_mergeAll_of_mem hd
  rw [mergeAll_eq_of_all_hasKey hA, mergeAll_eq_of_all_hasKey hB,
    mergeAll_eq_of_all_hasKey hC, mergeAll_eq_of_all_hasKey hD]

/-! ## Bridging facts about the Status Resolver -/

theorem mem_activeAlertsFor {a : Alert} {L : List Alert} {g h : String} :
    a ∈ activeAlertsFor L g h ↔
      a ∈ L ∧ a.group = g ∧ a.host = h ∧ a.resolvedAt = .ACTIVE := by
  unfold activeAlertsFor
  rw [List.mem_filter, decide_eq_true_iff]

theorem deadmanCheck_iff {L : List Alert} {g h : String} :
    ((activeAlertsFor L g h).any (fun a => decide (a.type = .deadman)) = true) ↔
      hasActive L g h .deadman := by
  rw [List.any_eq_true]
  constructor
  · rintro ⟨a, ha, hd⟩
    rcases mem_activeAlertsFor.mp ha with ⟨haL, hg, hh, hr⟩
    exact ⟨a, haL, hg, hh, of_decide_eq_true hd, hr⟩
  · rintro ⟨a, haL, hg, hh, ht, hr⟩
    exact ⟨a, mem_activeAlertsFor.mpr ⟨haL, hg, hh, hr⟩, decide_eq_true ht⟩

theorem activeAlerts_length_pos_iff {L : List Alert} {g h : String} :
    0 < (activeAlertsFor L g h).length ↔
      ∃ a ∈ L, a.group = g ∧ a.host = h ∧ a.resolvedAt = .ACTIVE := by
  rw [List.length_pos_iff_exists_mem]
  constructor
  · rintro ⟨a, ha⟩
    exact ⟨a, mem_activeAlertsFor.mp ha |>.1, mem_activeAlertsFor.mp ha |>.2⟩
  · rintro ⟨a, haL, hrest⟩
    exact ⟨a, mem_activeAlertsFor.mpr ⟨haL, hrest⟩⟩

/-! ## Claims C2 and C3: the Status Resolver precedence -/

/-- The four precedence cases of the Status Resolver, as one helper. -/
theorem getDeviceStatus_cases (V : Type) [LinearOrderedCommRing V] (now : Int)
    (st : Stores V) (L : List Alert) (g h : String) :
    (hasActive L g h .deadman → getDeviceStatus now st L g h = .offline) ∧
    (¬ hasActive L g h .deadman → DATA_STALE_MS < now - lastSeenTs st g h →
      getDeviceStatus now st L g h = .offline) ∧
    (¬ hasActive L g h .deadman → now - lastSeenTs st g h ≤ DATA_STALE_MS →
      (∃ a ∈ L, a.group = g ∧ a.host = h ∧ a.resolvedAt = .ACTIVE) →
      getDeviceStatus now st L g h = .warning) ∧
    (¬ (∃ a ∈ L, a.group = g ∧ a.host = h ∧ a.resolvedAt = .ACTIVE) →
      now - lastSeenTs st g h ≤ DATA_STALE_MS →
      getDeviceStatus now st L g h = .online) := by
  refine ⟨?_, ?_, ?_, ?_⟩
  · intro hd
    unfold getDeviceStatus
    rw [if_pos (deadmanCheck_iff.mpr hd)]
  · intro hd hstale
    unfold getDeviceStatus
    rw [if_neg, if_pos (decide_eq_true hstale)]
    intro hany
    exact hd (deadmanCheck_iff.mp hany)
  · intro hd hfresh hact
    unfold getDeviceStatus
    rw [if_neg, if_neg, if_pos]
    · exact decide_eq_true (activeAlerts_length_pos_iff.mpr hact)
    · intro hdec
      exact absurd (of_decide_eq_true hdec) (not_lt.mpr hfresh)
    · intro hany
      exact hd (deadmanCheck_iff.mp hany)
  · intro hnone hfresh
    unfold getDeviceStatus
    rw [if_neg, if_neg, if_neg]
    · intro hdec
      exact hnone (activeAlerts_length_pos_iff.mp (of_decide_eq_true hdec))
    · intro hdec
      exact absurd (of_decide_eq_true hdec) (not_lt.mpr hfresh)
    · intro hany
      rcases deadmanCheck_iff.mp hany with ⟨a, haL, hg, hh, _, hr⟩
      exact hnone ⟨a, haL, hg, hh, hr⟩

/-- C2 (corrected): the first-match-wins precedence of the Status
Resolver.  An `ACTIVE` deadman alert yields `offline` regardless of
sample freshness and of other alerts; otherwise staleness yields
`offline`; otherwise any `ACTIVE` alert yields `warning`; otherwise
`online`.  The warning clause requires fresh samples — the staleness
check precedes it. -/
theorem C2_status_precedence (V : Type) [LinearOrderedCommRing V] (now : Int)
    (st : Stores V) (L : List Alert) (g h : String) :
    (hasActive L g h .deadman → getDeviceStatus now st L g h = .offline) ∧
    (¬ hasActive L g h .deadman → DATA_STALE_MS < now - lastSeenTs st g h →
      getDeviceStatus now st L g h = .offline) ∧
    (¬ hasActive L g h .deadman → now - lastSeenTs st g h ≤ DATA_STALE_MS →
      (∃ a ∈ L, a.group = g ∧ a.host = h ∧ a.resolvedAt = .ACTIVE) →
      getDeviceStatus now st L g h = .warning) ∧
    (¬ (∃ a ∈ L, a.group = g ∧ a.host = h ∧ a.resolvedAt = .ACTIVE) →
      now - lastSeenTs st g h ≤ DATA_STALE_MS →
      getDeviceStatus now st L g h = .online) :=
  getDeviceStatus_cases V now st L g h

/-- C2 counterexample to the claim as stated: a device with no `ACTIVE`
deadman alert but an `ACTIVE` cpu alert whose samples are stale gets
status `offline`, not `warning` — the staleness check takes precedence
over the any-alert-warning clause. -/
theorem C2_counterexample_stale_not_warning :
    ¬ hasActive exLedgerOne "g" "h" .deadman ∧
    (∃ a ∈ exLedgerOne, a.group = "g" ∧ a.host = "h" ∧
      a.resolvedAt = ResolutionState.ACTIVE) ∧
    getDeviceStatus 400000 emptyStores exLedgerOne "g" "h" ≠ .warning := by
  decide

/-- A ledger holding one `ACTIVE` deadman alert for ("g", "h"). -/
def exLedgerDeadman : List Alert :=
  [{ group := "g", host := "h", type := .deadman, firstDetectedAt := 100000,
     lastSeen := 90000, resolvedAt := .ACTIVE }]

/-- Witness for C2, exercising the deadman, warning and online clauses
at concrete inputs. -/
theorem C2_status_precedence_witness :
    getDeviceStatus 200000 exStores exLedgerDeadman "g" "h" = .offline ∧
    getDeviceStatus 200000 exStores exLedgerOne "g" "h" = .warning ∧
    getDeviceStatus 200000 exStores [] "g" "h" = .online :=
  ⟨(C2_status_precedence Int 200000 exStores exLedgerDeadman "g" "h").1
      (by decide),
    (C2_status_precedence Int 200000 exStores exLedgerOne "g" "h").2.2.1
      (by decide) (by decide) (by decide),
    (C2_status_precedence Int 200000 exStores ([] : List Alert) "g" "h").2.2.2
      (by decide) (by decide)⟩

/-- C3: with no `ACTIVE` deadman alert, a device whose last sample
(the maximum of the latest cpu, memory and disk timestamps, an absent
sample counting as the epoch) is more than `DATA_STALE_MS` old is
reported `offline` — for every ledger without an active deadman record,
in particular the empty one. -/
theorem C3_stale_offline (V : Type) [LinearOrderedCommRing V] (now : Int)
    (st : Stores V) (L : List Alert) (g h : String)
    (hdead : ¬ hasActive L g h .deadman)
    (hstale : DATA_STALE_MS < now - lastSeenTs st g h) :
    getDeviceStatus now st L g h = .offline :=
  (getDeviceStatus_cases V now st L g h).2.1 hdead hstale

/-- Witness for C3: ten-minutes-silent device, zero alert records. -/
theorem C3_stale_offline_witness :
    getDeviceStatus 705000 exStores [] "g" "h" = .offline :=
  C3_stale_offline Int 705000 exStores [] "g" "h" (by decide) (by decide)

/-! ## Characterizing the open pipelines' outputs -/

theorem mem_keysOf {α : Type} {key : α → String × String} {ss : List α}
    {k : String × String} : k ∈ keysOf key ss ↔ ∃ s ∈ ss, key s = k := by
  unfold keysOf
  rw [List.mem_dedup, List.mem_map]

theorem mem_samplesFor {α : Type} {key : α → String × String} {k : String × String}
    {ss : List α} {s : α} : s ∈ samplesFor key k ss ↔ s ∈ ss ∧ key s = k := by
  unfold samplesFor
  rw [List.mem_filter, decide_eq_true_iff]

/-- Membership through a guarded `filterMap` of the shape every open
pipeline ends with. -/
theorem exists_mem_filterMap_guard {β γ : Type} {l : List β} {p : β → Prop}
    [DecidablePred p] {f : β → γ} {q : γ → Prop} :
    (∃ c ∈ l.filterMap (fun b => if decide (p b) then some (f b) else none), q c) ↔
      ∃ b ∈ l, p b ∧ q (f b) := by
  constructor
  · rintro ⟨c, hc, hq⟩
    rcases List.mem_filterMap.mp hc with ⟨b, hb, hgb⟩
    by_cases hp : p b
    · rw [if_pos (decide_eq_true hp)] at hgb
      rcases Option.some.injEq _ _ ▸ hgb with rfl
      exact ⟨b, hb, hp, hq⟩
    · rw [if_neg] at hgb
      · exact Option.noConfusion hgb
      · intro hdec
        exact hp (of_decide_eq_true hdec)
  · rintro ⟨b, hb, hp, hq⟩
    refine ⟨f b, List.mem_filterMap.mpr ⟨b, hb, ?_⟩, hq⟩
    rw [if_pos (decide_eq_true hp)]

theorem optGt_eq_true_iff {v : Option V} {t : V} :
    optGt v t = true ↔ ∃ x, v = some x ∧ t < x := by
  cases v with
  | none => simp [optGt]
  | some x => simp [optGt]

theorem optLt_eq_true_iff {v : Option V} {t : V} :
    optLt v t = true ↔ ∃ x, v = some x ∧ x < t := by
  cases v with
  | none => simp [optLt]
  | some x => simp [optLt]

theorem seenLastMinute_eq_true_iff {now : Int} {cpu : List (CpuSample V)}
    {g h : String} :
    seenLastMinute now cpu g h = true ↔
      ∃ s ∈ cpu, s.group = g ∧ s.host = h ∧ now - 60 * 1000 ≤ s.timestamp := by
  unfold seenLastMinute
  rw [List.any_eq_true]
  constructor
  · rintro ⟨s, hs, hdec⟩
    exact ⟨s, hs, of_decide_eq_true hdec⟩
  · rintro ⟨s, hs, hp⟩
    exact ⟨s, hs, decide_eq_true hp⟩

theorem cpuRecovered_eq_true_iff {th : Thresholds V} {now : Int}
    {cpu : List (CpuSample V)} {g h : String} :
    cpuRecovered th now cpu g h = true ↔
      ∃ s ∈ cpu, s.group = g ∧ s.host = h ∧ now - 6 * 60 * 1000 ≤ s.timestamp ∧
        ∃ w, s.usage_idle = some w ∧ th.CPU_WARNING_THRESHOLD < w := by
  unfold cpuRecovered
  rw [List.any_eq_true]
  constructor
  · rintro ⟨s, hs, hdec⟩
    rcases Bool.and_eq_true _ _ |>.mp hdec with ⟨h1, h2⟩
    rcases of_decide_eq_true h1 with ⟨hg, hh, hts⟩
    rcases optGt_eq_true_iff.mp h2 with ⟨w, hw, hlt⟩
    exact ⟨s, hs, hg, hh, hts, w, hw, hlt⟩
  · rintro ⟨s, hs, hg, hh, hts, w, hw, hlt⟩
    refine ⟨s, hs, Bool.and_eq_true _ _ |>.mpr ⟨decide_eq_true ⟨hg, hh, hts⟩, ?_⟩⟩
    exact optGt_eq_true_iff.mpr ⟨w, hw, hlt⟩

theorem memHealthy_eq_true_iff {th : Thresholds V} {now : Int}
    {mem : List (PctSample V)} {g h : String} :
    memHealthy th now mem g h = true ↔
      ∃ s ∈ mem, s.group = g ∧ s.host = h ∧ now - 6 * 60 * 1000 ≤ s.timestamp ∧
        ∃ p, s.used_percent = some p ∧ p < th.MEMORY_WARNING_THRESHOLD := by
  unfold memHealthy
  rw [List.any_eq_true]
  constructor
  · rintro ⟨s, hs, hdec⟩
    rcases Bool.and_eq_true _ _ |>.mp hdec with ⟨h1, h2⟩
    rcases of_decide_eq_true h1 with ⟨hg, hh, hts⟩
    rcases optLt_eq_true_iff.mp h2 with ⟨p, hp, hlt⟩
    exact ⟨s, hs, hg, hh, hts, p, hp, hlt⟩
  · rintro ⟨s, hs, hg, hh, hts, p, hp, hlt⟩
    refine ⟨s, hs, Bool.and_eq_true _ _ |>.mpr ⟨decide_eq_true ⟨hg, hh, hts⟩, ?_⟩⟩
    exact optLt_eq_true_iff.mpr ⟨p, hp, hlt⟩

/-! ## The shapes of the documents each pipeline emits -/

theorem mem_deadmanOpenDocs_iff {now : Int} {cpu : List (CpuSample V)}
    {q : Alert → Prop} :
    (∃ d ∈ deadmanOpenDocs now cpu, q d) ↔
      ∃ k ∈ keysOf keyOfCpu cpu,
        5 * 60 * 1000 <
          now - listMax 0 ((samplesFor keyOfCpu k cpu).map (·.timestamp)) ∧
        q { group := k.1, host := k.2, type := .deadman, firstDetectedAt := now,
            lastSeen := listMax 0 ((samplesFor keyOfCpu k cpu).map (·.timestamp)),
            resolvedAt := .ACTIVE } := by
  unfold deadmanOpenDocs
  exact exists_mem_filterMap_guard

theorem mem_cpuOpenDocs_iff {th : Thresholds V} {now : Int}
    {cpu : List (CpuSample V)} {q : Alert → Prop} :
    (∃ d ∈ cpuOpenDocs th now cpu, q d) ↔
      ∃ k ∈ keysOf keyOfCpu (cpuHighSamples th now cpu),
        6 ≤ ((samplesFor keyOfCpu k (cpuHighSamples th now cpu)).map
          (·.timestamp)).length ∧
        q { group := k.1, host := k.2, type := .cpu,
            firstDetectedAt := listMin 0 ((samplesFor keyOfCpu k
              (cpuHighSamples th now cpu)).map (·.timestamp)),
            lastSeen := listMax 0 ((samplesFor keyOfCpu k
              (cpuHighSamples th now cpu)).map (·.timestamp)),
            resolvedAt := .ACTIVE } := by
  unfold cpuOpenDocs
  exact exists_mem_filterMap_guard

theorem mem_memOpenDocs_iff {th : Thresholds V} {now : Int}
    {mem : List (PctSample V)} {q : Alert → Prop} :
    (∃ d ∈ memOpenDocs th now mem, q d) ↔
      ∃ k ∈ keysOf keyOfPct (memHighSamples th now mem),
        2 ≤ ((samplesFor keyOfPct k (memHighSamples th now mem)).map
          (·.timestamp)).length ∧
        q { group := k.1, host := k.2, type := .memory,
            firstDetectedAt := listMin 0 ((samplesFor keyOfPct k
              (memHighSamples th now mem)).map (·.timestamp)),
            lastSeen := listMax 0 ((samplesFor keyOfPct k
              (memHighSamples th now mem)).map (·.timestamp)),
            resolvedAt := .ACTIVE } := by
  unfold memOpenDocs
  exact exists_mem_filterMap_guard

theorem mem_diskOpenDocs_iff {th : Thresholds V} {now : Int}
    {disk : List (PctSample V)} {q : Alert → Prop} :
    (∃ d ∈ diskOpenDocs th now disk, q d) ↔
      ∃ k ∈ keysOf keyOfPct (diskHighSamples th now disk),
        2 ≤ ((samplesFor keyOfPct k (diskHighSamples th now disk)).map
          (·.timestamp)).length ∧
        q { group := k.1, host := k.2, type := .disk,
            firstDetectedAt := listMin 0 ((samplesFor keyOfPct k
              (diskHighSamples th now disk)).map (·.timestamp)),
            lastSeen := listMax 0 ((samplesFor keyOfPct k
              (diskHighSamples th now disk)).map (·.timestamp)),
            resolvedAt := .ACTIVE } := by
  unfold diskOpenDocs
  exact exists_mem_filterMap_guard

theorem deadmanOpenDocs_type {now : Int} {cpu : List (CpuSample V)} {d : Alert}
    (hd : d ∈ deadmanOpenDocs now cpu) :
    d.type = .deadman ∧ d.resolvedAt = .ACTIVE := by
  rcases List.mem_filterMap.mp hd with ⟨k, _, hk⟩
  by_cases hc : (5 * 60 * 1000 : Int) <
      now - listMax 0 ((samplesFor keyOfCpu k cpu).map (·.timestamp))
  · rw [if_pos (decide_eq_true hc)] at hk
    cases hk
    exact ⟨rfl, rfl⟩
  · rw [if_neg (fun hdec => hc (of_decide_eq_true hdec))] at hk
    exact Option.noConfusion hk

theorem cpuOpenDocs_type {th : Thresholds V} {now : Int} {cpu : List (CpuSample V)}
    {d : Alert} (hd : d ∈ cpuOpenDocs th now cpu) :
    d.type = .cpu ∧ d.resolvedAt = .ACTIVE := by
  rcases List.mem_filterMap.mp hd with ⟨k, _, hk⟩
  by_cases hc : 6 ≤ ((samplesFor keyOfCpu k (cpuHighSamples th now cpu)).map
      (·.timestamp)).length
  · rw [if_pos (decide_eq_true hc)] at hk
    cases hk
    exact ⟨rfl, rfl⟩
  · rw [if_neg (fun hdec => hc (of_decide_eq_true hdec))] at hk
    exact Option.noConfusion hk

theorem memOpenDocs_type {th : Thresholds V} {now : Int} {mem : List (PctSample V)}
    {d : Alert} (hd : d ∈ memOpenDocs th now mem) :
    d.type = .memory ∧ d.resolvedAt = .ACTIVE := by
  rcases List.mem_filterMap.mp hd with ⟨k, _, hk⟩
  by_cases hc : 2 ≤ ((samplesFor keyOfPct k (memHighSamples th now mem)).map
      (·.timestamp)).length
  · rw [if_pos (decide_eq_true hc)] at hk
    cases hk
    exact ⟨rfl, rfl⟩
  · rw [if_neg (fun hdec => hc (of_decide_eq_true hdec))] at hk
    exact Option.noConfusion hk

theorem diskOpenDocs_type {th : Thresholds V} {now : Int} {disk : List (PctSample V)}
    {d : Alert} (hd : d ∈ diskOpenDocs th now disk) :
    d.type = .disk ∧ d.resolvedAt = .ACTIVE := by
  rcases List.mem_filterMap.mp hd with ⟨k, _, hk⟩
  by_cases hc : 2 ≤ ((samplesFor keyOfPct k (diskHighSamples th now disk)).map
      (·.timestamp)).length
  · rw [if_pos (decide_eq_true hc)] at hk
    cases hk
    exact ⟨rfl, rfl⟩
  · rw [if_neg (fun hdec => hc (of_decide_eq_true hdec))] at hk
    exact Option.noConfusion hk

/-! ## `hasActive` through the merge of a pipeline's documents -/

theorem hasActive_mergeAll_other {L : List Alert} {docs : List Alert} {g h : String}
    {ty : AlertType} (hne : ∀ d ∈ docs, d.type ≠ ty) :
    hasActive (mergeAll L docs) g h ty ↔ hasActive L g h ty := by
  rw [hasActive_mergeAll]
  constructor
  · rintro (hL | ⟨d, hd, hact⟩)
    · exact hL
    · exact absurd hact.2.2.1 (hne d hd)
  · exact Or.inl

theorem hasActive_mergeAll_same {L : List Alert} {docs : List Alert} {g h : String}
    {ty : AlertType} (hty : ∀ d ∈ docs, d.type = ty ∧ d.resolvedAt = .ACTIVE) :
    hasActive (mergeAll L docs) g h ty ↔
      hasActive L g h ty ∨ ∃ d ∈ docs, d.group = g ∧ d.host = h := by
  rw [hasActive_mergeAll]
  constructor
  · rintro (hL | ⟨d, hd, hact⟩)
    · exact Or.inl hL
    · exact Or.inr ⟨d, hd, hact.1, hact.2.1⟩
  · rintro (hL | ⟨d, hd, hg, hh⟩)
    · exact Or.inl hL
    · exact Or.inr ⟨d, hd, hg, hh, (hty d hd).1, (hty d hd).2⟩

/-- Existing records pass through the four open pipelines untouched. -/
theorem mem_openSteps (th : Thresholds V) (now : Int) (st : Stores V)
    {a : Alert} {L : List Alert} (ha : a ∈ L) : a ∈ openSteps th now st L := by
  unfold openSteps openDiskStep openMemoryStep openCpuStep openDeadmanStep
  exact mem_mergeAll _ (mem_mergeAll _ (mem_mergeAll _ (mem_mergeAll _ ha)))

theorem not_hasActive_resolveWhere {t : AlertType} {c : String → String → Bool}
    {now : Int} {L : List Alert} {g h : String} {ty : AlertType}
    (hn : ¬ hasActive L g h ty) : ¬ hasActive (resolveWhere t c now L) g h ty :=
  fun hpost => hn (hasActive_resolveWhere.mp hpost).1

theorem hasActive_tick_deadman_iff {th : Thresholds V} {now : Int} {st : Stores V}
    {L : List Alert} {g h : String} (hnone : ¬ hasActive L g h .deadman) :
    hasActive (evaluatorTick th now st L) g h .deadman ↔
      ∃ d ∈ deadmanOpenDocs now st.cpu, d.group = g ∧ d.host = h := by
  unfold evaluatorTick openSteps openDiskStep openMemoryStep openCpuStep
    openDeadmanStep resolveDiskStep resolveMemoryStep resolveCpuStep
    resolveDeadmanStep
  rw [hasActive_mergeAll_other (fun d hd => by
    rw [(diskOpenDocs_type hd).1]; decide)]
  rw [hasActive_mergeAll_other (fun d hd => by
    rw [(memOpenDocs_type hd).1]; decide)]
  rw [hasActive_mergeAll_other (fun d hd => by
    rw [(cpuOpenDocs_type hd).1]; decide)]
  rw [hasActive_mergeAll_same (fun d hd => deadmanOpenDocs_type hd)]
  exact or_iff_right (not_hasActive_resolveWhere (not_hasActive_resolveWhere
    (not_hasActive_resolveWhere (not_hasActive_resolveWhere hnone))))

theorem hasActive_tick_cpu_iff {th : Thresholds V} {now : Int} {st : Stores V}
    {L : List Alert} {g h : String} (hnone : ¬ hasActive L g h .cpu) :
    hasActive (evaluatorTick th now st L) g h .cpu ↔
      ∃ d ∈ cpuOpenDocs th now st.cpu, d.group = g ∧ d.host = h := by
  unfold evaluatorTick openSteps openDiskStep openMemoryStep openCpuStep
    openDeadmanStep resolveDiskStep resolveMemoryStep resolveCpuStep
    resolveDeadmanStep
  rw [hasActive_mergeAll_other (fun d hd => by
    rw [(diskOpenDocs_type hd).1]; decide)]
  rw [hasActive_mergeAll_other (fun d hd => by
    rw [(memOpenDocs_type hd).1]; decide)]
  rw [hasActive_mergeAll_same (fun d hd => cpuOpenDocs_type hd)]
  rw [hasActive_mergeAll_other (fun d hd => by
    rw [(deadmanOpenDocs_type hd).1]; decide)]
  exact or_iff_right (not_hasActive_resolveWhere (not_hasActive_resolveWhere
    (not_hasActive_resolveWhere (not_hasActive_resolveWhere hnone))))

theorem deadmanOpenDocs_key_iff {now : Int} {cpu : List (CpuSample V)}
    {g h : String} :
    (∃ d ∈ deadmanOpenDocs now cpu, d.group = g ∧ d.host = h) ↔
      (∃ s ∈ cpu, s.group = g ∧ s.host = h) ∧
        ∀ s ∈ cpu, s.group = g → s.host = h →
          s.timestamp < now - 5 * 60 * 1000 := by
  rw [mem_deadmanOpenDocs_iff]
  constructor
  · rintro ⟨k, hk, hstale, hg, hh⟩
    have hkgh : k = (g, h) := Prod.ext hg hh
    subst hkgh
    rcases mem_keysOf.mp hk with ⟨s, hs, hkey⟩
    refine ⟨⟨s, hs, congrArg Prod.fst hkey, congrArg Prod.snd hkey⟩, ?_⟩
    intro s' hs' hg' hh'
    have hmem : s' ∈ samplesFor keyOfCpu (g, h) cpu :=
      mem_samplesFor.mpr ⟨hs', by unfold keyOfCpu; rw [hg', hh']⟩
    have hts : s'.timestamp ≤
        listMax 0 ((samplesFor keyOfCpu (g, h) cpu).map (·.timestamp)) :=
      le_listMax_of_mem (List.mem_map_of_mem _ hmem)
    omega
  · rintro ⟨⟨s, hs, hg', hh'⟩, hall⟩
    have hkey : keyOfCpu s = (g, h) := by unfold keyOfCpu; rw [hg', hh']
    have hne : (samplesFor keyOfCpu (g, h) cpu).map (·.timestamp) ≠ [] := by
      intro hnil
      have hmem : s ∈ samplesFor keyOfCpu (g, h) cpu := mem_samplesFor.mpr ⟨hs, hkey⟩
      have hts : s.timestamp ∈
          (samplesFor keyOfCpu (g, h) cpu).map (·.timestamp) :=
        List.mem_map_of_mem _ hmem
      rw [hnil] at hts
      cases hts
    refine ⟨(g, h), mem_keysOf.mpr ⟨s, hs, hkey⟩, ?_, rfl, rfl⟩
    have hlt : listMax 0 ((samplesFor keyOfCpu (g, h) cpu).map (·.timestamp)) <
        now - 5 * 60 * 1000 := by
      rw [listMax_lt_iff hne]
      intro t ht
      rcases List.mem_map.mp ht with ⟨s', hs'mem, rfl⟩
      rcases mem_samplesFor.mp hs'mem with ⟨hs'cpu, hkey'⟩
      exact hall s' hs'cpu (congrArg Prod.fst hkey') (congrArg Prod.snd hkey')
    omega

theorem cpu_used_gt_iff {s : CpuSample V} {t : V} :
    optGt (cpu_used s) t = true ↔
      ∃ u v, s.usage_user = some u ∧ s.usage_system = some v ∧ t < u + v := by
  unfold cpu_used
  cases hu : s.usage_user <;> cases hv : s.usage_system <;> simp [optGt]

/-- The spec-level per-sample condition of the cpu open rule:
`usage_user + usage_system` (both fields present) exceeds the cpu
threshold. -/
def cpuExceeds (th : Thresholds V) (s : CpuSample V) : Prop :=
  ∃ u v, s.usage_user = some u ∧ s.usage_system = some v ∧
    th.CPU_WARNING_THRESHOLD < u + v

instance (th : Thresholds V) (s : CpuSample V) : Decidable (cpuExceeds th s) :=
  decidable_of_iff _ cpu_used_gt_iff

theorem cpuHigh_count_eq {th : Thresholds V} {now : Int} {cpu : List (CpuSample V)}
    {g h : String} :
    (samplesFor keyOfCpu (g, h) (cpuHighSamples th now cpu)).length =
      (cpu.filter (fun s => decide (s.group = g ∧ s.host = h ∧
        now - 5 * 60 * 1000 ≤ s.timestamp ∧ cpuExceeds th s))).length := by
  unfold samplesFor cpuHighSamples
  rw [List.filter_filter]
  congr 1
  apply List.filter_congr
  intro s _
  rw [Bool.eq_iff_iff]
  rw [Bool.and_eq_true, Bool.and_eq_true]
  rw [decide_eq_true_iff, decide_eq_true_iff, decide_eq_true_iff]
  unfold cpuExceeds
  rw [cpu_used_gt_iff]
  unfold keyOfCpu
  rw [Prod.mk.injEq]
  tauto

theorem cpuOpenDocs_key_iff {th : Thresholds V} {now : Int}
    {cpu : List (CpuSample V)} {g h : String} :
    (∃ d ∈ cpuOpenDocs th now cpu, d.group = g ∧ d.host = h) ↔
      6 ≤ (samplesFor keyOfCpu (g, h) (cpuHighSamples th now cpu)).length := by
  rw [mem_cpuOpenDocs_iff]
  constructor
  · rintro ⟨k, _, hcount, hg, hh⟩
    have hkgh : k = (g, h) := Prod.ext hg hh
    subst hkgh
    rwa [List.length_map] at hcount
  · intro hcount
    refine ⟨(g, h), ?_, ?_, rfl, rfl⟩
    · have hpos : 0 < (samplesFor keyOfCpu (g, h) (cpuHighSamples th now cpu)).length := by
        omega
      rcases List.length_pos_iff_exists_mem.mp hpos with ⟨s, hs⟩
      rcases mem_samplesFor.mp hs with ⟨hs', hkey⟩
      exact mem_keysOf.mpr ⟨s, hs', hkey⟩
    · rwa [List.length_map]

theorem mem_resolveWhere_of_type_ne {a : Alert} {L : List Alert} {t : AlertType}
    {c : String → String → Bool} {now : Int} (ha : a ∈ L) (hne : a.type ≠ t) :
    a ∈ resolveWhere t c now L :=
  mem_resolveWhere_of_not_match ha (fun hm => hne hm.1)

/-! ## Claim C5 -/

/-- C5 (corrected): under the evaluator tick, for a pair with no prior
`ACTIVE` deadman alert, a deadman alert is opened exactly when the pair
has at least one cpu sample and none of its cpu samples lies within the
5-minute lookback window (a pair with no cpu samples at all is never
opened, since the pipeline groups existing samples); and an `ACTIVE`
deadman alert is resolved as soon as at least one cpu sample for the
pair exists in the last minute. -/
theorem C5_deadman_rule (V : Type) [LinearOrderedCommRing V] (th : Thresholds V)
    (now : Int) (st : Stores V) (L : List Alert) (g h : String) :
    (¬ hasActive L g h .deadman →
      (hasActive (evaluatorTick th now st L) g h .deadman ↔
        (∃ s ∈ st.cpu, s.group = g ∧ s.host = h) ∧
          ∀ s ∈ st.cpu, s.group = g → s.host = h →
            s.timestamp < now - 5 * 60 * 1000)) ∧
    (∀ a ∈ L, isActiveFor a g h .deadman →
      (∃ s ∈ st.cpu, s.group = g ∧ s.host = h ∧ now - 60 * 1000 ≤ s.timestamp) →
      { a with resolvedAt := .resolved now } ∈ evaluatorTick th now st L) := by
  constructor
  · intro hnone
    rw [hasActive_tick_deadman_iff hnone, deadmanOpenDocs_key_iff]
  · rintro a ha hact hseen
    have hcond : seenLastMinute now st.cpu a.group a.host = true := by
      rw [hact.1, hact.2.1, seenLastMinute_eq_true_iff]
      exact hseen
    unfold evaluatorTick resolveDiskStep resolveMemoryStep resolveCpuStep
      resolveDeadmanStep
    apply mem_openSteps
    apply mem_resolveWhere_of_resolved _ rfl
    apply mem_resolveWhere_of_resolved _ rfl
    apply mem_resolveWhere_of_resolved _ rfl
    exact mem_resolveWhere_of_match ha hact.2.2.1 hact.2.2.2 hcond

/-- C5 counterexample to the claim as stated: the pair ("g", "h") has no
cpu sample in the 5-minute window (it has no samples at all), yet the
tick opens no deadman alert — absence of any sample defeats the
"no sample in window" open condition. -/
theorem C5_counterexample_never_seen :
    (¬ ∃ s ∈ emptyStores.cpu, s.group = "g" ∧ s.host = "h" ∧
        (400000 : Int) - 5 * 60 * 1000 ≤ s.timestamp) ∧
    ¬ hasActive (evaluatorTick exTh 400000 emptyStores []) "g" "h" .deadman := by
  decide

/-- Witness for C5 on a host whose samples are all older than the
window. -/
theorem C5_deadman_rule_witness :
    hasActive (evaluatorTick exTh 700000 exStores []) "g" "h" .deadman ↔
      (∃ s ∈ exStores.cpu, s.group = "g" ∧ s.host = "h") ∧
        ∀ s ∈ exStores.cpu, s.group = "g" → s.host = "h" →
          s.timestamp < 700000 - 5 * 60 * 1000 :=
  (C5_deadman_rule Int exTh 700000 exStores [] "g" "h").1 (by decide)

/-! ## Claim C6 -/

/-- Six cpu samples that satisfy the open condition (user+system = 100)
and the resolve condition (idle = 95) at the same time. -/
def exBothSample (t : Int) : CpuSample Int :=
  { group := "g", host := "h", timestamp := t, usage_user := some 50,
    usage_system := some 50, usage_idle := some 95 }

/-- Stores on which the cpu open and resolve conditions hold
simultaneously. -/
def exBothStores : Stores Int :=
  { cpu := [exBothSample 100000, exBothSample 101000, exBothSample 102000,
      exBothSample 103000, exBothSample 104000, exBothSample 105000],
    memory := [], disk := [] }

/-- C6: under the evaluator tick, for a pair with no prior `ACTIVE` cpu
alert, a cpu alert is opened exactly when at least 6 samples of the
5-minute window have `usage_user + usage_system` above
`CPU_WARNING_THRESHOLD`; an `ACTIVE` cpu alert is resolved when some
sample of the last 6 minutes has `usage_idle` above the same threshold;
and the two conditions test different fields and are not complements —
on `exBothStores` both hold at once. -/
theorem C6_cpu_rule (V : Type) [LinearOrderedCommRing V] (th : Thresholds V)
    (now : Int) (st : Stores V) (L : List Alert) (g h : String) :
    (¬ hasActive L g h .cpu →
      (hasActive (evaluatorTick th now st L) g h .cpu ↔
        6 ≤ (st.cpu.filter (fun s => decide (s.group = g ∧ s.host = h ∧
          now - 5 * 60 * 1000 ≤ s.timestamp ∧ cpuExceeds th s))).length)) ∧
    (∀ a ∈ L, isActiveFor a g h .cpu →
      (∃ s ∈ st.cpu, s.group = g ∧ s.host = h ∧
        now - 6 * 60 * 1000 ≤ s.timestamp ∧
        ∃ w, s.usage_idle = some w ∧ th.CPU_WARNING_THRESHOLD < w) →
      { a with resolvedAt := .resolved now } ∈ evaluatorTick th now st L) ∧
    ((6 ≤ (exBothStores.cpu.filter (fun s => decide (s.group = "g" ∧
        s.host = "h" ∧ (400000 : Int) - 5 * 60 * 1000 ≤ s.timestamp ∧
        cpuExceeds exTh s))).length) ∧
      ∃ s ∈ exBothStores.cpu, s.group = "g" ∧ s.host = "h" ∧
        (400000 : Int) - 6 * 60 * 1000 ≤ s.timestamp ∧
        ∃ w, s.usage_idle = some w ∧
          exTh.CPU_WARNING_THRESHOLD < w) := by
  refine ⟨?_, ?_, by decide⟩
  · intro hnone
    rw [hasActive_tick_cpu_iff hnone, cpuOpenDocs_key_iff, cpuHigh_count_eq]
  · rintro a ha hact hrec
    have hcond : cpuRecovered th now st.cpu a.group a.host = true := by
      rw [hact.1, hact.2.1, cpuRecovered_eq_true_iff]
      exact hrec
    unfold evaluatorTick resolveDiskStep resolveMemoryStep resolveCpuStep
      resolveDeadmanStep
    apply mem_openSteps
    apply mem_resolveWhere_of_resolved _ rfl
    apply mem_resolveWhere_of_resolved _ rfl
    apply mem_resolveWhere_of_match _ hact.2.2.1 hact.2.2.2 hcond
    apply mem_resolveWhere_of_type_ne ha
    rw [hact.2.2.1]
    decide

/-- Witness for C6 on six high-cpu samples in the window. -/
theorem C6_cpu_rule_witness :
    hasActive (evaluatorTick exTh 400000 exStores []) "g" "h" .cpu ↔
      6 ≤ (exStores.cpu.filter (fun s => decide (s.group = "g" ∧ s.host = "h" ∧
        (400000 : Int) - 5 * 60 * 1000 ≤ s.timestamp ∧
        cpuExceeds exTh s))).length :=
  (C6_cpu_rule Int exTh 400000 exStores [] "g" "h").1 (by decide)

/-! ## Claim C8 -/

/-- C8: an `ACTIVE` memory alert is resolved by the tick — its record
reappears with `resolvedAt` set to the evaluation time — whenever the
6-minute resolve window contains a memory sample with `used_percent`
below `MEMORY_WARNING_THRESHOLD`; and the memory resolve update leaves
every record that is not an `ACTIVE` memory alert untouched. -/
theorem C8_memory_resolution (V : Type) [LinearOrderedCommRing V]
    (th : Thresholds V) (now : Int) (st : Stores V) (L : List Alert)
    (g h : String) :
    (∀ a ∈ L, isActiveFor a g h .memory →
      (∃ s ∈ st.memory, s.group = g ∧ s.host = h ∧
        now - 6 * 60 * 1000 ≤ s.timestamp ∧
        ∃ p, s.used_percent = some p ∧ p < th.MEMORY_WARNING_THRESHOLD) →
      { a with resolvedAt := .resolved now } ∈ evaluatorTick th now st L) ∧
    (∀ a ∈ L, ¬ (a.type = .memory ∧ a.resolvedAt = .ACTIVE) →
      a ∈ resolveMemoryStep th now st L) := by
  constructor
  · rintro a ha hact hres
    have hcond : memHealthy th now st.memory a.group a.host = true := by
      rw [hact.1, hact.2.1, memHealthy_eq_true_iff]
      exact hres
    unfold evaluatorTick resolveDiskStep resolveMemoryStep resolveCpuStep
      resolveDeadmanStep
    apply mem_openSteps
    apply mem_resolveWhere_of_resolved _ rfl
    apply mem_resolveWhere_of_match _ hact.2.2.1 hact.2.2.2 hcond
    apply mem_resolveWhere_of_type_ne _ (by rw [hact.2.2.1]; decide)
    exact mem_resolveWhere_of_type_ne ha (by rw [hact.2.2.1]; decide)
  · intro a ha hnm
    unfold resolveMemoryStep
    exact mem_resolveWhere_of_not_match ha (fun hm => hnm ⟨hm.1, hm.2.1⟩)

/-- A healthy memory sample for ("g", "h") just before the tick. -/
def exMemSample : PctSample Int :=
  { group := "g", host := "h", timestamp := 395000, used_percent := some 50 }

/-- Stores holding only that memory sample. -/
def exMemStores : Stores Int :=
  { cpu := [], memory := [exMemSample], disk := [] }

/-- A ledger holding one `ACTIVE` memory alert for ("g", "h"). -/
def exLedgerMemory : List Alert :=
  [{ group := "g", host := "h", type := .memory, firstDetectedAt := 100000,
     lastSeen := 105000, resolvedAt := .ACTIVE }]

/-- Witness for C8: the concrete memory alert comes back resolved at
the tick time. -/
theorem C8_memory_resolution_witness :
    ({ group := "g", host := "h", type := AlertType.memory,
       firstDetectedAt := 100000, lastSeen := 105000,
       resolvedAt := ResolutionState.resolved 400000 } : Alert) ∈
      evaluatorTick exTh 400000 exMemStores exLedgerMemory :=
  (C8_memory_resolution Int exTh 400000 exMemStores exLedgerMemory "g" "h").1
    _ (List.mem_singleton_self _) (by decide) (by decide)

/-! ## Claim C7: clamping of out-of-range percentages -/

/-- Replace a reported `used_percent` of 150 by 100 in one sample. -/
def cap150 (s : PctSample V) : PctSample V :=
  if s.used_percent = some 150 then { s with used_percent := some 100 } else s

/-- Replace the value 150 by 100. -/
def capV (v : V) : V :=
  if v = 150 then 100 else v

theorem cap150_key (s : PctSample V) : keyOfPct (cap150 s) = keyOfPct s := by
  unfold cap150 keyOfPct
  split <;> rfl

theorem cap150_timestamp (s : PctSample V) : (cap150 s).timestamp = s.timestamp := by
  unfold cap150
  split <;> rfl

theorem cap150_group (s : PctSample V) : (cap150 s).group = s.group := by
  unfold cap150
  split <;> rfl

theorem cap150_host (s : PctSample V) : (cap150 s).host = s.host := by
  unfold cap150
  split <;> rfl

theorem cap150_used_percent (s : PctSample V) :
    (cap150 s).used_percent = s.used_percent.map capV := by
  unfold cap150
  by_cases h150 : s.used_percent = some 150
  · rw [if_pos h150, h150]
    show some 100 = some (capV 150)
    unfold capV
    rw [if_pos rfl]
  · rw [if_neg h150]
    cases hv : s.used_percent with
    | none => rfl
    | some v =>
      show some v = some (capV v)
      unfold capV
      rw [if_neg]
      intro hveq
      rw [hveq] at hv
      exact h150 hv

theorem clampPct_150 : clampPct (150 : V) = 100 := by
  unfold clampPct
  rw [max_eq_right (by norm_num : (0 : V) ≤ 150),
    min_eq_left (by norm_num : (100 : V) ≤ 150)]

theorem clampPct_100 : clampPct (100 : V) = 100 := by
  unfold clampPct
  rw [max_eq_right (by norm_num : (0 : V) ≤ 100),
    min_eq_left (le_refl (100 : V))]

theorem cap150_clamp_check (th : Thresholds V) (s : PctSample V) :
    (match (cap150 s).used_percent with
      | some p => decide (th.STORAGE_WARNING_THRESHOLD ≤ clampPct p)
      | none => false) =
    (match s.used_percent with
      | some p => decide (th.STORAGE_WARNING_THRESHOLD ≤ clampPct p)
      | none => false) := by
  unfold cap150
  by_cases h150 : s.used_percent = some 150
  · rw [if_pos h150, h150]
    show decide (th.STORAGE_WARNING_THRESHOLD ≤ clampPct 100) =
      decide (th.STORAGE_WARNING_THRESHOLD ≤ clampPct 150)
    rw [clampPct_100, clampPct_150]
  · rw [if_neg h150]

theorem diskHighSamples_map_cap150 (th : Thresholds V) (now : Int)
    (disk : List (PctSample V)) :
    diskHighSamples th now (disk.map cap150) =
      (diskHighSamples th now disk).map cap150 := by
  unfold diskHighSamples
  rw [List.filter_map]
  congr 1
  apply List.filter_congr
  intro s _
  simp only [Function.comp_apply]
  rw [cap150_timestamp, cap150_clamp_check]

theorem keysOf_map_cap150 (l : List (PctSample V)) :
    keysOf keyOfPct (l.map cap150) = keysOf keyOfPct l := by
  unfold keysOf
  rw [List.map_map]
  congr 1
  apply List.map_congr_left
  intro s _
  exact cap150_key s

theorem samplesFor_ts_map_cap150 (k : String × String) (l : List (PctSample V)) :
    ((samplesFor keyOfPct k (l.map cap150)).map (·.timestamp)) =
      ((samplesFor keyOfPct k l).map (·.timestamp)) := by
  unfold samplesFor
  rw [List.filter_map, List.map_map]
  have h1 : l.filter ((fun s => decide (keyOfPct s = k)) ∘ cap150) =
      l.filter (fun s => decide (keyOfPct s = k)) := by
    apply List.filter_congr
    intro s _
    simp only [Function.comp_apply]
    rw [cap150_key]
  rw [h1]
  apply List.map_congr_left
  intro s _
  simp only [Function.comp_apply]
  exact cap150_timestamp s

theorem diskOpenDocs_map_cap150 (th : Thresholds V) (now : Int)
    (disk : List (PctSample V)) :
    diskOpenDocs th now (disk.map cap150) = diskOpenDocs th now disk := by
  unfold diskOpenDocs
  rw [diskHighSamples_map_cap150, keysOf_map_cap150]
  congr 1
  funext k
  rw [samplesFor_ts_map_cap150]

theorem diskRecentValues_map_cap150 (now : Int) (disk : List (PctSample V))
    (g h : String) :
    diskRecentValues now (disk.map cap150) g h =
      (diskRecentValues now disk g h).map capV := by
  unfold diskRecentValues
  rw [List.filter_map]
  have h1 : disk.filter ((fun s => decide (s.group = g ∧ s.host = h ∧
      now - 6 * 60 * 1000 ≤ s.timestamp)) ∘ cap150) =
      disk.filter (fun s => decide (s.group = g ∧ s.host = h ∧
        now - 6 * 60 * 1000 ≤ s.timestamp)) := by
    apply List.filter_congr
    intro s _
    simp only [Function.comp_apply]
    rw [cap150_group, cap150_host, cap150_timestamp]
  rw [h1, List.filterMap_map, List.map_filterMap]
  apply List.filterMap_congr
  intro s _
  simp only [Function.comp_apply]
  rw [cap150_used_percent]

theorem capV_lt_iff {v t : V} (h100 : t ≤ 100) : capV v < t ↔ v < t := by
  unfold capV
  split
  · rename_i h150
    rw [h150]
    constructor
    · intro hc
      exact absurd hc (not_lt.mpr h100)
    · intro hc
      have h1 : (100 : V) < 150 := by norm_num
      exact absurd hc (not_lt.mpr (by linarith))
  · exact Iff.rfl

theorem diskUnderThreshold_map_cap150 (now : Int) {t : V}
    (disk : List (PctSample V)) (g h : String) (h100 : t ≤ 100) :
    diskUnderThreshold now t (disk.map cap150) g h =
      diskUnderThreshold now t disk g h := by
  unfold diskUnderThreshold
  rw [diskRecentValues_map_cap150]
  cases hvs : diskRecentValues now disk g h with
  | nil => rfl
  | cons v vs =>
    rw [List.map_cons]
    show (!(false) && _) = (!(false) && _)
    congr 1
    rw [Bool.eq_iff_iff, decide_eq_true_iff, decide_eq_true_iff]
    rw [listMax_lt_iff (l := capV v :: vs.map capV) (by intro hh; cases hh),
      listMax_lt_iff (l := v :: vs) (by intro hh; cases hh)]
    constructor
    · intro hall u hu
      have := hall (capV u) (by
        rcases List.mem_cons.mp hu with rfl | hmem
        · exact List.mem_cons_self _ _
        · exact List.mem_cons_of_mem _ (List.mem_map_of_mem capV hmem))
      exact (capV_lt_iff h100).mp this
    · intro hall u hu
      rcases List.mem_cons.mp hu with rfl | hmem
      · exact (capV_lt_iff h100).mpr (hall v (List.mem_cons_self v vs))
      · rcases List.mem_map.mp hmem with ⟨w, hw, rfl⟩
        exact (capV_lt_iff h100).mpr (hall w (List.mem_cons_of_mem v hw))

/-- C7: a disk sample reporting `used_percent = 150` is treated as 100
against `STORAGE_WARNING_THRESHOLD` in both evaluator directions: the
open pipeline clamps it (`min 100 (max 0 150) = 100`), and replacing
every reported 150 by 100 changes neither the open pipeline's output
nor the resolve condition, for any threshold that is at most 100. -/
theorem C7_clamping (V : Type) [LinearOrderedCommRing V] (th : Thresholds V)
    (now : Int) (disk : List (PctSample V)) (g h : String)
    (h100 : th.STORAGE_WARNING_THRESHOLD ≤ 100) :
    clampPct (150 : V) = 100 ∧
    diskOpenDocs th now (disk.map cap150) = diskOpenDocs th now disk ∧
    diskUnderThreshold now th.STORAGE_WARNING_THRESHOLD (disk.map cap150) g h =
      diskUnderThreshold now th.STORAGE_WARNING_THRESHOLD disk g h :=
  ⟨clampPct_150, diskOpenDocs_map_cap150 th now disk,
    diskUnderThreshold_map_cap150 now disk g h h100⟩

/-- Disk samples, one of which reports an out-of-range 150 percent. -/
def exDisk150 : List (PctSample Int) :=
  [{ group := "g", host := "h", timestamp := 399000, used_percent := some 150 },
   { group := "g", host := "h", timestamp := 398000, used_percent := some 95 }]

/-- Witness for C7 at the concrete thresholds. -/
theorem C7_clamping_witness :
    clampPct (150 : Int) = 100 ∧
    diskOpenDocs exTh 400000 (exDisk150.map cap150) =
      diskOpenDocs exTh 400000 exDisk150 ∧
    diskUnderThreshold 400000 exTh.STORAGE_WARNING_THRESHOLD
        (exDisk150.map cap150) "g" "h" =
      diskUnderThreshold 400000 exTh.STORAGE_WARNING_THRESHOLD exDisk150 "g" "h" :=
  C7_clamping Int exTh 400000 exDisk150 "g" "h" (by decide)

/-! ## Claim C9: `lastSeen` on merge -/

theorem cpuOpenDocs_lastSeen_max {th : Thresholds V} {now : Int}
    {cpu : List (CpuSample V)} {d : Alert} (hd : d ∈ cpuOpenDocs th now cpu) :
    d.lastSeen ∈ (samplesFor keyOfCpu (d.group, d.host)
        (cpuHighSamples th now cpu)).map (·.timestamp) ∧
      ∀ t ∈ (samplesFor keyOfCpu (d.group, d.host)
        (cpuHighSamples th now cpu)).map (·.timestamp), t ≤ d.lastSeen := by
  rcases List.mem_filterMap.mp hd with ⟨k, _, hgk⟩
  by_cases hc : 6 ≤ ((samplesFor keyOfCpu k (cpuHighSamples th now cpu)).map
      (·.timestamp)).length
  · rw [if_pos (decide_eq_true hc)] at hgk
    cases hgk
    constructor
    · apply listMax_mem
      intro hnil
      rw [hnil] at hc
      exact absurd hc (by decide)
    · intro t ht
      exact le_listMax_of_mem ht
  · rw [if_neg (fun hdec => hc (of_decide_eq_true hdec))] at hgk
    exact Option.noConfusion hgk

theorem memOpenDocs_lastSeen_max {th : Thresholds V} {now : Int}
    {mem : List (PctSample V)} {d : Alert} (hd : d ∈ memOpenDocs th now mem) :
    d.lastSeen ∈ (samplesFor keyOfPct (d.group, d.host)
        (memHighSamples th now mem)).map (·.timestamp) ∧
      ∀ t ∈ (samplesFor keyOfPct (d.group, d.host)
        (memHighSamples th now mem)).map (·.timestamp), t ≤ d.lastSeen := by
  rcases List.mem_filterMap.mp hd with ⟨k, _, hgk⟩
  by_cases hc : 2 ≤ ((samplesFor keyOfPct k (memHighSamples th now mem)).map
      (·.timestamp)).length
  · rw [if_pos (decide_eq_true hc)] at hgk
    cases hgk
    constructor
    · apply listMax_mem
      intro hnil
      rw [hnil] at hc
      exact absurd hc (by decide)
    · intro t ht
      exact le_listMax_of_mem ht
  · rw [if_neg (fun hdec => hc (of_decide_eq_true hdec))] at hgk
    exact Option.noConfusion hgk

theorem diskOpenDocs_lastSeen_max {th : Thresholds V} {now : Int}
    {disk : List (PctSample V)} {d : Alert} (hd : d ∈ diskOpenDocs th now disk) :
    d.lastSeen ∈ (samplesFor keyOfPct (d.group, d.host)
        (diskHighSamples th now disk)).map (·.timestamp) ∧
      ∀ t ∈ (samplesFor keyOfPct (d.group, d.host)
        (diskHighSamples th now disk)).map (·.timestamp), t ≤ d.lastSeen := by
  rcases List.mem_filterMap.mp hd with ⟨k, _, hgk⟩
  by_cases hc : 2 ≤ ((samplesFor keyOfPct k (diskHighSamples th now disk)).map
      (·.timestamp)).length
  · rw [if_pos (decide_eq_true hc)] at hgk
    cases hgk
    constructor
    · apply listMax_mem
      intro hnil
      rw [hnil] at hc
      exact absurd hc (by decide)
    · intro t ht
      exact le_listMax_of_mem ht
  · rw [if_neg (fun hdec => hc (of_decide_eq_true hdec))] at hgk
    exact Option.noConfusion hgk

theorem deadmanOpenDocs_lastSeen_max {now : Int} {cpu : List (CpuSample V)}
    {d : Alert} (hd : d ∈ deadmanOpenDocs now cpu) :
    d.lastSeen ∈ (samplesFor keyOfCpu (d.group, d.host) cpu).map (·.timestamp) ∧
      ∀ t ∈ (samplesFor keyOfCpu (d.group, d.host) cpu).map (·.timestamp),
        t ≤ d.lastSeen := by
  rcases List.mem_filterMap.mp hd with ⟨k, hk, hgk⟩
  by_cases hc : (5 * 60 * 1000 : Int) <
      now - listMax 0 ((samplesFor keyOfCpu k cpu).map (·.timestamp))
  · rw [if_pos (decide_eq_true hc)] at hgk
    cases hgk
    constructor
    · apply listMax_mem
      intro hnil
      rcases mem_keysOf.mp hk with ⟨s, hs, hkey⟩
      have hmem : s ∈ samplesFor keyOfCpu k cpu := mem_samplesFor.mpr ⟨hs, hkey⟩
      have hts : s.timestamp ∈ (samplesFor keyOfCpu k cpu).map (·.timestamp) :=
        List.mem_map_of_mem _ hmem
      rw [hnil] at hts
      cases hts
    · intro t ht
      exact le_listMax_of_mem ht
  · rw [if_neg (fun hdec => hc (of_decide_eq_true hdec))] at hgk
    exact Option.noConfusion hgk

/-- C9 (corrected): the open pipelines never modify an existing record
— a matched `ACTIVE` record keeps its old `lastSeen` — and `lastSeen`
reflects the most recent qualifying sample only on the documents a
pipeline emits, i.e. only at insertion time (for the deadman pipeline,
the most recent cpu sample of the pair). -/
theorem C9_lastSeen_insert_only (V : Type) [LinearOrderedCommRing V]
    (th : Thresholds V) (now : Int) (st : Stores V) (L : List Alert) :
    (∀ a ∈ L, a ∈ openSteps th now st L) ∧
    (∀ d ∈ cpuOpenDocs th now st.cpu,
      d.lastSeen ∈ (samplesFor keyOfCpu (d.group, d.host)
          (cpuHighSamples th now st.cpu)).map (·.timestamp) ∧
        ∀ t ∈ (samplesFor keyOfCpu (d.group, d.host)
          (cpuHighSamples th now st.cpu)).map (·.timestamp), t ≤ d.lastSeen) ∧
    (∀ d ∈ memOpenDocs th now st.memory,
      d.lastSeen ∈ (samplesFor keyOfPct (d.group, d.host)
          (memHighSamples th now st.memory)).map (·.timestamp) ∧
        ∀ t ∈ (samplesFor keyOfPct (d.group, d.host)
          (memHighSamples th now st.memory)).map (·.timestamp), t ≤ d.lastSeen) ∧
    (∀ d ∈ diskOpenDocs th now st.disk,
      d.lastSeen ∈ (samplesFor keyOfPct (d.group, d.host)
          (diskHighSamples th now st.disk)).map (·.timestamp) ∧
        ∀ t ∈ (samplesFor keyOfPct (d.group, d.host)
          (diskHighSamples th now st.disk)).map (·.timestamp), t ≤ d.lastSeen) ∧
    (∀ d ∈ deadmanOpenDocs now st.cpu,
      d.lastSeen ∈ (samplesFor keyOfCpu (d.group, d.host) st.cpu).map
          (·.timestamp) ∧
        ∀ t ∈ (samplesFor keyOfCpu (d.group, d.host) st.cpu).map (·.timestamp),
          t ≤ d.lastSeen) :=
  ⟨fun _ ha => mem_openSteps th now st ha,
    fun _ hd => cpuOpenDocs_lastSeen_max hd,
    fun _ hd => memOpenDocs_lastSeen_max hd,
    fun _ hd => diskOpenDocs_lastSeen_max hd,
    fun _ hd => deadmanOpenDocs_lastSeen_max hd⟩

/-- The same six high-cpu samples with six newer ones. -/
def exStores2 : Stores Int :=
  { cpu := exStores.cpu ++ [exCpuSample 350000, exCpuSample 351000,
      exCpuSample 352000, exCpuSample 353000, exCpuSample 354000,
      exCpuSample 355000],
    memory := [], disk := [] }

/-- C9 counterexample to the claim as stated: after a first tick opens
the cpu alert (lastSeen 105000), a second tick whose window holds a
newer qualifying sample (355000) leaves the `ACTIVE` record's
`lastSeen` at 105000 — `whenMatched: keepExisting` does not bring
`lastSeen` up to date. -/
theorem C9_counterexample_lastSeen_stale :
    (∃ s ∈ exStores2.cpu, s.group = "g" ∧ s.host = "h" ∧
      (600000 : Int) - 5 * 60 * 1000 ≤ s.timestamp ∧ cpuExceeds exTh s ∧
      s.timestamp = 355000) ∧
    (∃ a ∈ evaluatorTick exTh 600000 exStores2
        (evaluatorTick exTh 400000 exStores []),
      isActiveFor a "g" "h" .cpu ∧ a.lastSeen = 105000) ∧
    ¬ (∃ a ∈ evaluatorTick exTh 600000 exStores2
        (evaluatorTick exTh 400000 exStores []),
      isActiveFor a "g" "h" .cpu ∧ a.lastSeen = 355000) := by
  decide

/-- Witness for C9: a concrete `ACTIVE` record passes the open steps
untouched. -/
theorem C9_lastSeen_insert_only_witness :
    ({ group := "g", host := "h", type := AlertType.cpu,
       firstDetectedAt := 100000, lastSeen := 105000,
       resolvedAt := ResolutionState.ACTIVE } : Alert) ∈
      openSteps exTh 600000 exStores2 exLedgerOne :=
  (C9_lastSeen_insert_only Int exTh 600000 exStores2 exLedgerOne).1 _
    (List.mem_singleton_self _)

end DSTelemetry
